import Mathlib

/-!
Verification of the mission-data-pipeline core against its specification.

The Python sources are shallowly embedded: machine bytes are `Nat` values
(with `< 256` hypotheses where it matters), Python `float` arithmetic is
modelled by `ℚ` (all values exercised here are exactly representable),
fallible constructors return `Except String`, and the generator-style
stream scanner is an explicit fuel-driven loop on a byte list (the fuel
`buf.length + 1` is proved sufficient, so the wrapper is total and
computes by reduction).
-/

/-! ## Arithmetic bridges for the bit-packing used by `struct`-style codecs -/

/-- A bit-or of a shifted field with a value that fits strictly below the
shift amount is plain addition. -/
theorem Nat.or_of_lt_two_pow (k a b : ℕ) (hb : b < 2 ^ k) :
    (a * 2 ^ k) ||| b = a * 2 ^ k + b := by
  induction k generalizing a b with
  | zero =>
    interval_cases b
    simp
  | succ k ih =>
    have hb2 : b / 2 < 2 ^ k := by
      have := Nat.pow_succ 2 k ▸ hb
      omega
    have hdiv : ((a * 2 ^ (k + 1)) ||| b) / 2 = a * 2 ^ k + b / 2 := by
      rw [Nat.or_div_two]
      have hA : a * 2 ^ (k + 1) / 2 = a * 2 ^ k := by
        have : a * 2 ^ (k + 1) = (a * 2 ^ k) * 2 := by ring
        omega
      rw [hA, ih a (b / 2) hb2]
    have heven : a * 2 ^ (k + 1) % 2 = 0 := by
      have : a * 2 ^ (k + 1) = (a * 2 ^ k) * 2 := by ring
      omega
    have hmod : ((a * 2 ^ (k + 1)) ||| b) % 2 = b % 2 := by
      rcases Nat.mod_two_eq_zero_or_one b with h | h
      · have : ¬ ((a * 2 ^ (k + 1)) ||| b) % 2 = 1 := by
          rw [Nat.or_mod_two_eq_one]
          omega
        omega
      · have : ((a * 2 ^ (k + 1)) ||| b) % 2 = 1 := by
          rw [Nat.or_mod_two_eq_one]
          omega
        omega
    calc (a * 2 ^ (k + 1)) ||| b
        = 2 * (((a * 2 ^ (k + 1)) ||| b) / 2) + ((a * 2 ^ (k + 1)) ||| b) % 2 :=
          (Nat.div_add_mod _ 2).symm
      _ = 2 * (a * 2 ^ k + b / 2) + b % 2 := by rw [hdiv, hmod]
      _ = a * 2 ^ (k + 1) + b := by
          have h1 : a * 2 ^ (k + 1) = 2 * (a * 2 ^ k) := by ring
          omega

theorem Nat.shl_or_eq_add (k a b : ℕ) (hb : b < 2 ^ k) :
    (a <<< k) ||| b = a * 2 ^ k + b := by
  rw [Nat.shiftLeft_eq]
  exact Nat.or_of_lt_two_pow k a b hb

theorem Nat.and_seven (x : ℕ) : x &&& 7 = x % 8 := by
  simpa using Nat.and_pow_two_sub_one_eq_mod x 3

theorem Nat.and_three (x : ℕ) : x &&& 3 = x % 4 := by
  simpa using Nat.and_pow_two_sub_one_eq_mod x 2

theorem Nat.and_mask11 (x : ℕ) : x &&& 0x07FF = x % 2048 := by
  simpa using Nat.and_pow_two_sub_one_eq_mod x 11

theorem Nat.and_mask14 (x : ℕ) : x &&& 0x3FFF = x % 16384 := by
  simpa using Nat.and_pow_two_sub_one_eq_mod x 14

theorem Nat.shr_thirteen (x : ℕ) : x >>> 13 = x / 8192 := by
  simpa using Nat.shiftRight_eq_div_pow x 13

theorem Nat.shr_twelve (x : ℕ) : x >>> 12 = x / 4096 := by
  simpa using Nat.shiftRight_eq_div_pow x 12

theorem Nat.shr_eleven (x : ℕ) : x >>> 11 = x / 2048 := by
  simpa using Nat.shiftRight_eq_div_pow x 11

theorem Nat.shr_fourteen (x : ℕ) : x >>> 14 = x / 16384 := by
  simpa using Nat.shiftRight_eq_div_pow x 14

/-! ## Header codec (`src/mdp/models/packet.py`, `CCSDSPrimaryHeader`)

`seq_flags` is the 2-bit `PacketSequenceFlags` `IntEnum`; all four 2-bit
values 0..3 are members, so it is embedded as a `Nat` with the range
check folded into validation. -/

structure CCSDSPrimaryHeader where
  version : ℕ
  type_flag : ℕ
  sec_hdr_flag : ℕ
  apid : ℕ
  seq_flags : ℕ
  seq_count : ℕ
  data_length : ℕ
deriving DecidableEq, Repr

/-- The pydantic field constraints on `CCSDSPrimaryHeader` (checked at every
construction of the frozen model), together with membership of `seq_flags`
in the `PacketSequenceFlags` enum (exactly the values 0..3). -/
def validateHeader (h : CCSDSPrimaryHeader) : Bool :=
  h.version ≤ 7 && h.type_flag ≤ 1 && h.sec_hdr_flag ≤ 1 && h.apid ≤ 0x7FF &&
  h.seq_flags ≤ 3 && h.seq_count ≤ 0x3FFF && h.data_length ≤ 0xFFFF

/-- Big-endian 16-bit word from two bytes, as done by `struct.unpack`
with format `>HHH` on the 6 header bytes. -/
def word16 (b0 b1 : ℕ) : ℕ := b0 * 256 + b1

/-- `CCSDSPrimaryHeader.from_bytes`: reject fewer than 6 bytes, unpack three
big-endian words, mask out the fields, then run the pydantic validation that
`cls(...)` performs (a failure there raises `ValidationError`, a subclass of
`ValueError`). -/
def CCSDSPrimaryHeader.from_bytes (raw : List ℕ) : Except String CCSDSPrimaryHeader :=
  if raw.length < 6 then .error ("Primary header requires 6 bytes")
  else
    let word0 := word16 (raw.getD 0 0) (raw.getD 1 0)
    let word1 := word16 (raw.getD 2 0) (raw.getD 3 0)
    let word2 := word16 (raw.getD 4 0) (raw.getD 5 0)
    let h : CCSDSPrimaryHeader :=
      { version := (word0 >>> 13) &&& 0x07
        type_flag := (word0 >>> 12) &&& 0x01
        sec_hdr_flag := (word0 >>> 11) &&& 0x01
        apid := word0 &&& 0x07FF
        seq_flags := (word1 >>> 14) &&& 0x03
        seq_count := word1 &&& 0x3FFF
        data_length := word2 }
    if validateHeader h then .ok h else .error ("header validation failed")

/-- `CCSDSPrimaryHeader.to_bytes`: pack the fields into three big-endian
16-bit words.  `struct.pack` would reject a word above 0xFFFF; the Python
method is only ever applied to validated (frozen) headers, for which the
words fit, so the byte extraction is modelled directly with `/` and `%`. -/
def CCSDSPrimaryHeader.to_bytes (h : CCSDSPrimaryHeader) : List ℕ :=
  let word0 := (h.version <<< 13) ||| (h.type_flag <<< 12) ||| (h.sec_hdr_flag <<< 11) ||| h.apid
  let word1 := (h.seq_flags <<< 14) ||| h.seq_count
  [word0 / 256 % 256, word0 % 256, word1 / 256 % 256, word1 % 256,
   h.data_length / 256 % 256, h.data_length % 256]

/-- `CCSDSPrimaryHeader.packet_data_length`: actual data field length. -/
def CCSDSPrimaryHeader.packet_data_length (h : CCSDSPrimaryHeader) : ℕ :=
  h.data_length + 1

/-- `CCSDSPrimaryHeader.total_length`. -/
def CCSDSPrimaryHeader.total_length (h : CCSDSPrimaryHeader) : ℕ :=
  6 + h.packet_data_length

theorem word0_eq (v t s a : ℕ) (hv : v ≤ 7) (ht : t ≤ 1) (hs : s ≤ 1) (ha : a ≤ 0x7FF) :
    (v <<< 13) ||| (t <<< 12) ||| (s <<< 11) ||| a
      = v * 8192 + t * 4096 + s * 2048 + a := by
  have h1 : (s <<< 11) ||| a = s * 2048 + a :=
    Nat.shl_or_eq_add 11 s a (by norm_num; omega)
  have h2 : (t <<< 12) ||| ((s <<< 11) ||| a) = t * 4096 + (s * 2048 + a) := by
    rw [h1]
    exact Nat.shl_or_eq_add 12 t _ (by norm_num; omega)
  calc (v <<< 13) ||| (t <<< 12) ||| (s <<< 11) ||| a
      = (v <<< 13) ||| ((t <<< 12) ||| ((s <<< 11) ||| a)) := by
        rw [Nat.or_assoc, Nat.or_assoc]
    _ = v * 8192 + (t * 4096 + (s * 2048 + a)) := by
        rw [h2]
        exact Nat.shl_or_eq_add 13 v _ (by norm_num; omega)
    _ = v * 8192 + t * 4096 + s * 2048 + a := by ring

theorem word1_eq (f c : ℕ) (hf : f ≤ 3) (hc : c ≤ 0x3FFF) :
    (f <<< 14) ||| c = f * 16384 + c :=
  Nat.shl_or_eq_add 14 f c (by norm_num; omega)

/-- Decoding the bytes produced by `to_bytes` recovers a validated header
exactly.  Shared helper behind the round-trip claim and the scanner proofs. -/
theorem from_bytes_to_bytes (h : CCSDSPrimaryHeader) (hv : validateHeader h = true) :
    CCSDSPrimaryHeader.from_bytes h.to_bytes = .ok h := by
  obtain ⟨version, type_flag, sec_hdr_flag, apid, seq_flags, seq_count, data_length⟩ := h
  simp only [validateHeader, Bool.and_eq_true, decide_eq_true_eq] at hv
  obtain ⟨⟨⟨⟨⟨⟨h1, h2⟩, h3⟩, h4⟩, h5⟩, h6⟩, h7⟩
    : (((((version ≤ 7 ∧ type_flag ≤ 1) ∧ sec_hdr_flag ≤ 1) ∧ apid ≤ 0x7FF) ∧
        seq_flags ≤ 3) ∧ seq_count ≤ 0x3FFF) ∧ data_length ≤ 0xFFFF := hv
  have hw0 := word0_eq version type_flag sec_hdr_flag apid h1 h2 h3 h4
  have hw1 := word1_eq seq_flags seq_count h5 h6
  simp only [CCSDSPrimaryHeader.to_bytes, hw0, hw1]
  set w0 := version * 8192 + type_flag * 4096 + sec_hdr_flag * 2048 + apid with hw0def
  set w1 := seq_flags * 16384 + seq_count with hw1def
  have hw0lt : w0 < 65536 := by omega
  have hw1lt : w1 < 65536 := by omega
  simp only [CCSDSPrimaryHeader.from_bytes, List.length_cons, List.length_nil,
    List.getD_cons_zero, List.getD_cons_succ, word16]
  have e0 : w0 / 256 % 256 * 256 + w0 % 256 = w0 := by omega
  have e1 : w1 / 256 % 256 * 256 + w1 % 256 = w1 := by omega
  have e2 : data_length / 256 % 256 * 256 + data_length % 256 = data_length := by omega
  rw [if_neg (by omega)]
  simp only [e0, e1, e2]
  have f1 : (w0 >>> 13) &&& 0x07 = version := by
    rw [Nat.shr_thirteen, Nat.and_seven]; omega
  have f2 : (w0 >>> 12) &&& 0x01 = type_flag := by
    rw [Nat.shr_twelve, Nat.and_one_is_mod]; omega
  have f3 : (w0 >>> 11) &&& 0x01 = sec_hdr_flag := by
    rw [Nat.shr_eleven, Nat.and_one_is_mod]; omega
  have f4 : w0 &&& 0x07FF = apid := by
    rw [Nat.and_mask11]; omega
  have f5 : (w1 >>> 14) &&& 0x03 = seq_flags := by
    rw [Nat.shr_fourteen, Nat.and_three]; omega
  have f6 : w1 &&& 0x3FFF = seq_count := by
    rw [Nat.and_mask14]; omega
  simp only [f1, f2, f3, f4, f5, f6]
  rw [if_pos]
  simp only [validateHeader]
  simp only [Bool.and_eq_true, decide_eq_true_eq]
  omega

/-- Decoding any 6 available bytes succeeds: every field is masked into its
declared range, so the pydantic validation always passes.  Shared helper
behind the totality claim and the scanner analysis. -/
theorem getD_lt_of_forall_lt (l : List ℕ) (i c : ℕ) (hi : i < l.length)
    (hb : ∀ b ∈ l, b < c) : l.getD i 0 < c := by
  rw [List.getD_eq_getElem?_getD, List.getElem?_eq_getElem hi]
  exact hb _ (List.getElem_mem hi)

theorem from_bytes_total (raw : List ℕ) (hlen : 6 ≤ raw.length)
    (hbytes : ∀ b ∈ raw, b < 256) :
    ∃ h, CCSDSPrimaryHeader.from_bytes raw = .ok h ∧ validateHeader h = true := by
  have h4 : raw.getD 4 0 < 256 := getD_lt_of_forall_lt raw 4 256 (by omega) hbytes
  have h5 : raw.getD 5 0 < 256 := getD_lt_of_forall_lt raw 5 256 (by omega) hbytes
  simp only [CCSDSPrimaryHeader.from_bytes]
  rw [if_neg (by omega)]
  set w0 := word16 (raw.getD 0 0) (raw.getD 1 0)
  set w1 := word16 (raw.getD 2 0) (raw.getD 3 0)
  have hval : validateHeader
      { version := (w0 >>> 13) &&& 0x07
        type_flag := (w0 >>> 12) &&& 0x01
        sec_hdr_flag := (w0 >>> 11) &&& 0x01
        apid := w0 &&& 0x07FF
        seq_flags := (w1 >>> 14) &&& 0x03
        seq_count := w1 &&& 0x3FFF
        data_length := word16 (raw.getD 4 0) (raw.getD 5 0) } = true := by
    simp only [validateHeader, Bool.and_eq_true, decide_eq_true_eq]
    refine ⟨⟨⟨⟨⟨⟨?_, ?_⟩, ?_⟩, ?_⟩, ?_⟩, ?_⟩, ?_⟩
    · exact Nat.and_le_right
    · exact Nat.and_le_right
    · exact Nat.and_le_right
    · exact Nat.and_le_right
    · exact Nat.and_le_right
    · exact Nat.and_le_right
    · simp only [word16]; omega
  rw [if_pos hval]
  exact ⟨_, rfl, hval⟩

/-! ## Packet codec (`src/mdp/models/packet.py`, `TelemetryPacket`) -/

structure TelemetryPacket where
  header : CCSDSPrimaryHeader
  secondary_header : List ℕ := []
  user_data : List ℕ
  source_time_tai : Option ℚ := none
  ground_receipt_time : Option ℚ := none
  source_id : Option String := none
deriving DecidableEq, Repr

/-- Construction of a `TelemetryPacket`, including the
`model_validator(mode="after")` `_validate_data_length`: the declared data
field length must match the supplied bytes exactly, otherwise construction
raises.  The accepted fields are stored verbatim. -/
def mkTelemetryPacket (h : CCSDSPrimaryHeader) (sec user : List ℕ)
    (stt grt : Option ℚ) (sid : Option String) : Except String TelemetryPacket :=
  if sec.length + user.length ≠ h.packet_data_length then
    .error ("Packet data field mismatch")
  else
    .ok { header := h, secondary_header := sec, user_data := user,
          source_time_tai := stt, ground_receipt_time := grt, source_id := sid }

/-- `TelemetryPacket.from_bytes`: decode the primary header from the first
6 bytes, slice the data field to the declared length, split off the
secondary header when flagged and configured, and construct the packet
(running the data-length validator). -/
def TelemetryPacket.from_bytes (raw : List ℕ) (sec_hdr_length : ℕ)
    (grt : Option ℚ) (sid : Option String) : Except String TelemetryPacket :=
  match CCSDSPrimaryHeader.from_bytes (raw.take 6) with
  | .error e => .error e
  | .ok header =>
    let data_field := (raw.drop 6).take header.packet_data_length
    let sec_hdr := if header.sec_hdr_flag ≠ 0 ∧ 0 < sec_hdr_length
                   then data_field.take sec_hdr_length else []
    let user_data := data_field.drop sec_hdr.length
    mkTelemetryPacket header sec_hdr user_data none grt sid

/-! ## Stream scanner (`src/mdp/plugins/extractors/binary.py`)

The generator `_parse_buffer` is embedded as a fuel-driven loop over the
remaining byte list; every loop iteration that continues consumes at least
one byte, so `buf.length + 1` units of fuel always suffice (proved below),
and the wrapper `parseBuffer` is the total function the claims are about.
The file path, which only feeds `metadata`, is not modelled. -/

def SYNC_MARKER : List ℕ := [0x1a, 0xcf, 0xfc, 0x1d]

/-- `BinaryPacketExtractor._seek_to_sync`: scan for the sync marker one
byte at a time; on a `0x1a` byte, read three more bytes and compare the
4-byte candidate with the marker.  On a match the buffer is rewound to the
start of the marker (the returned suffix); on a mismatch scanning resumes
after the three look-ahead bytes, which the source never rewinds. -/
def seekToSync : List ℕ → Option (List ℕ)
  | [] => none
  | b :: rest =>
    if b = 0x1a then
      match rest with
      | r1 :: r2 :: r3 :: rest2 =>
        if r1 = 0xcf ∧ r2 = 0xfc ∧ r3 = 0x1d then some (b :: rest)
        else seekToSync rest2
      | _ => none
    else seekToSync rest

structure BinaryExtractorConfig where
  batch_size : ℕ := 256
  apid_filter : Option (List ℕ) := none
  sec_hdr_length : ℕ := 0
  frame_sync : Bool := false
  source_id : Option String := none
  ground_receipt_time : Option ℚ := none
deriving Repr

/-- Python truthiness of `if self.config.apid_filter and header.apid not in
self.config.apid_filter`: an empty allow-list is falsy, disabling the
filter. -/
def apidFiltered (cfg : BinaryExtractorConfig) (apid : ℕ) : Bool :=
  match cfg.apid_filter with
  | none => false
  | some l => !l.isEmpty && !(l.contains apid)

/-- One iteration of the `while True` loop in `_parse_buffer`, after the
optional sync-marker seek: what the iteration does to the cursor. -/
inductive ScanStep where
  | halt : ScanStep
  | cont : List ℕ → ScanStep
  | packet : TelemetryPacket → List ℕ → ScanStep
  | fail : String → ScanStep
deriving DecidableEq, Repr

/-- The post-seek part of a `_parse_buffer` iteration: read 6 header bytes
(break on exhaustion), decode the header (`continue` past the read bytes if
it raises), read the declared data field (break if short), drop filtered
APIDs (`continue`), then build the `TelemetryPacket` (an exception here
would propagate out of the generator). -/
def scanBody (cfg : BinaryExtractorConfig) (grt : Option ℚ) (b1 : List ℕ) : ScanStep :=
  if b1.length < 6 then .halt
  else
    match CCSDSPrimaryHeader.from_bytes (b1.take 6) with
    | .error _ => .cont (b1.drop 6)
    | .ok header =>
      let rest := b1.drop 6
      if rest.length < header.packet_data_length then .halt
      else
        let data_field := rest.take header.packet_data_length
        let rest2 := rest.drop header.packet_data_length
        if apidFiltered cfg header.apid then .cont rest2
        else
          match TelemetryPacket.from_bytes (b1.take 6 ++ data_field)
              cfg.sec_hdr_length grt cfg.source_id with
          | .error e => .fail e
          | .ok p => .packet p rest2

/-- A full `_parse_buffer` iteration: in frame-sync mode first seek to the
marker (break when it is never found) and skip its 4 bytes. -/
def scanStep (cfg : BinaryExtractorConfig) (grt : Option ℚ) (buf : List ℕ) : ScanStep :=
  if cfg.frame_sync then
    match seekToSync buf with
    | none => .halt
    | some b => scanBody cfg grt (b.drop 4)
  else scanBody cfg grt buf

/-- `if dataset.packets: yield dataset` after the loop exits normally. -/
def flushBatch (batch : List TelemetryPacket) : List (List TelemetryPacket) :=
  if batch.isEmpty then [] else [batch]

/-- The `_parse_buffer` loop with explicit fuel: the current batch and its
packet count thread through; a full batch is yielded and the accumulators
reset; an uncaught exception ends the generator without the trailing
flush. -/
def parseLoop (cfg : BinaryExtractorConfig) (grt : Option ℚ) :
    ℕ → List ℕ → List TelemetryPacket → ℕ →
    List (List TelemetryPacket) × Option String
  | 0, _, batch, _ => (flushBatch batch, none)
  | fuel + 1, buf, batch, count =>
    match scanStep cfg grt buf with
    | .halt => (flushBatch batch, none)
    | .fail e => ([], some e)
    | .cont rest => parseLoop cfg grt fuel rest batch count
    | .packet p rest =>
      if cfg.batch_size ≤ count + 1 then
        let r := parseLoop cfg grt fuel rest [] 0
        ((batch ++ [p]) :: r.1, r.2)
      else
        parseLoop cfg grt fuel rest (batch ++ [p]) (count + 1)

/-- `_parse_buffer` from an intermediate loop state. -/
def parseBufferFrom (cfg : BinaryExtractorConfig) (grt : Option ℚ)
    (buf : List ℕ) (batch : List TelemetryPacket) (count : ℕ) :
    List (List TelemetryPacket) × Option String :=
  parseLoop cfg grt (buf.length + 1) buf batch count

/-- `BinaryPacketExtractor._parse_buffer` on a whole buffer: the sequence of
yielded batches, plus the exception that ended the generator if one did. -/
def parseBuffer (cfg : BinaryExtractorConfig) (grt : Option ℚ) (buf : List ℕ) :
    List (List TelemetryPacket) × Option String :=
  parseBufferFrom cfg grt buf [] 0

theorem seekToSync_cons_ne (b : ℕ) (rest : List ℕ) (hb : ¬ b = 0x1a) :
    seekToSync (b :: rest) = seekToSync rest := by
  match rest with
  | [] => simp [seekToSync, hb]
  | [r1] => simp [seekToSync, hb]
  | [r1, r2] => simp [seekToSync, hb]
  | r1 :: r2 :: r3 :: rest2 => simp [seekToSync, hb]

theorem seekToSync_cons4 (b r1 r2 r3 : ℕ) (rest2 : List ℕ) :
    seekToSync (b :: r1 :: r2 :: r3 :: rest2) =
      if b = 0x1a then
        if r1 = 0xcf ∧ r2 = 0xfc ∧ r3 = 0x1d then
          some (b :: r1 :: r2 :: r3 :: rest2)
        else seekToSync rest2
      else seekToSync (r1 :: r2 :: r3 :: rest2) := by
  by_cases hb : b = 0x1a
  · simp [seekToSync, hb]
  · simp [seekToSync_cons_ne b _ hb, hb]

theorem seekToSync_length_le :
    ∀ (buf r : List ℕ), seekToSync buf = some r → r.length ≤ buf.length := by
  have key : ∀ n (buf : List ℕ), buf.length ≤ n →
      ∀ r, seekToSync buf = some r → r.length ≤ buf.length := by
    intro n
    induction n with
    | zero =>
      intro buf hlen r h
      have : buf = [] := List.length_eq_zero.mp (by omega)
      subst this
      simp [seekToSync] at h
    | succ n ih =>
      intro buf hlen r h
      match buf with
      | [] => simp [seekToSync] at h
      | b :: rest =>
        by_cases hb : b = 0x1a
        · subst hb
          match rest with
          | [] => simp [seekToSync] at h
          | [r1] => simp [seekToSync] at h
          | [r1, r2] => simp [seekToSync] at h
          | r1 :: r2 :: r3 :: rest2 =>
            rw [seekToSync_cons4, if_pos rfl] at h
            by_cases hm : r1 = 0xcf ∧ r2 = 0xfc ∧ r3 = 0x1d
            · rw [if_pos hm] at h
              cases h
              simp
            · rw [if_neg hm] at h
              have hlen2 : rest2.length ≤ n := by
                simp only [List.length_cons] at hlen ⊢
                omega
              have := ih rest2 hlen2 r h
              simp only [List.length_cons]
              omega
        · rw [seekToSync_cons_ne b rest hb] at h
          have hlen2 : rest.length ≤ n := by
            simp only [List.length_cons] at hlen
            omega
          have := ih rest hlen2 r h
          simp only [List.length_cons]
          omega
  intro buf r h
  exact key buf.length buf le_rfl r h

theorem scanBody_cont_length (cfg : BinaryExtractorConfig) (grt : Option ℚ)
    (b1 rest : List ℕ) (h : scanBody cfg grt b1 = .cont rest) :
    rest.length + 6 ≤ b1.length := by
  rw [scanBody] at h
  by_cases h6 : b1.length < 6
  · rw [if_pos h6] at h
    cases h
  · rw [if_neg h6] at h
    match hdr : CCSDSPrimaryHeader.from_bytes (b1.take 6) with
    | .error e =>
      rw [hdr] at h
      simp only [ScanStep.cont.injEq] at h
      subst h
      simp only [List.length_drop]
      omega
    | .ok header =>
      rw [hdr] at h
      simp only at h
      by_cases hshort : (b1.drop 6).length < header.packet_data_length
      · rw [if_pos hshort] at h
        cases h
      · rw [if_neg hshort] at h
        by_cases hfilt : apidFiltered cfg header.apid
        · rw [if_pos hfilt] at h
          simp only [ScanStep.cont.injEq] at h
          subst h
          simp only [List.length_drop] at hshort ⊢
          have hpdl : 1 ≤ header.packet_data_length := by
            simp [CCSDSPrimaryHeader.packet_data_length]
          omega
        · rw [if_neg hfilt] at h
          match hp : TelemetryPacket.from_bytes
              (b1.take 6 ++ (b1.drop 6).take header.packet_data_length)
              cfg.sec_hdr_length grt cfg.source_id with
          | .error e => rw [hp] at h; cases h
          | .ok p => rw [hp] at h; cases h

theorem scanBody_packet_length (cfg : BinaryExtractorConfig) (grt : Option ℚ)
    (b1 rest : List ℕ) (p : TelemetryPacket)
    (h : scanBody cfg grt b1 = .packet p rest) :
    rest.length + 7 ≤ b1.length := by
  rw [scanBody] at h
  by_cases h6 : b1.length < 6
  · rw [if_pos h6] at h
    cases h
  · rw [if_neg h6] at h
    match hdr : CCSDSPrimaryHeader.from_bytes (b1.take 6) with
    | .error e => rw [hdr] at h; cases h
    | .ok header =>
      rw [hdr] at h
      simp only at h
      by_cases hshort : (b1.drop 6).length < header.packet_data_length
      · rw [if_pos hshort] at h
        cases h
      · rw [if_neg hshort] at h
        by_cases hfilt : apidFiltered cfg header.apid
        · rw [if_pos hfilt] at h
          cases h
        · rw [if_neg hfilt] at h
          match hp : TelemetryPacket.from_bytes
              (b1.take 6 ++ (b1.drop 6).take header.packet_data_length)
              cfg.sec_hdr_length grt cfg.source_id with
          | .error e => rw [hp] at h; cases h
          | .ok q =>
            rw [hp] at h
            simp only [ScanStep.packet.injEq] at h
            obtain ⟨rfl, rfl⟩ := h
            simp only [List.length_drop] at hshort ⊢
            have hpdl : 1 ≤ header.packet_data_length := by
              simp [CCSDSPrimaryHeader.packet_data_length]
            omega

theorem scanStep_cont_length (cfg : BinaryExtractorConfig) (grt : Option ℚ)
    (buf rest : List ℕ) (h : scanStep cfg grt buf = .cont rest) :
    rest.length < buf.length := by
  rw [scanStep] at h
  by_cases hfs : cfg.frame_sync
  · rw [if_pos hfs] at h
    match hs : seekToSync buf with
    | none => rw [hs] at h; cases h
    | some b =>
      rw [hs] at h
      have h1 := scanBody_cont_length cfg grt (b.drop 4) rest h
      have h2 := seekToSync_length_le buf b hs
      simp only [List.length_drop] at h1
      omega
  · rw [if_neg hfs] at h
    have := scanBody_cont_length cfg grt buf rest h
    omega

theorem scanStep_packet_length (cfg : BinaryExtractorConfig) (grt : Option ℚ)
    (buf rest : List ℕ) (p : TelemetryPacket)
    (h : scanStep cfg grt buf = .packet p rest) :
    rest.length < buf.length := by
  rw [scanStep] at h
  by_cases hfs : cfg.frame_sync
  · rw [if_pos hfs] at h
    match hs : seekToSync buf with
    | none => rw [hs] at h; cases h
    | some b =>
      rw [hs] at h
      have h1 := scanBody_packet_length cfg grt (b.drop 4) rest p h
      have h2 := seekToSync_length_le buf b hs
      simp only [List.length_drop] at h1
      omega
  · rw [if_neg hfs] at h
    have := scanBody_packet_length cfg grt buf rest p h
    omega

/-- Any amount of fuel exceeding the number of remaining bytes produces the
same scan result: the loop consumes at least one byte per iteration. -/
theorem parseLoop_congr (cfg : BinaryExtractorConfig) (grt : Option ℚ) :
    ∀ f1 f2 (buf : List ℕ) batch count, buf.length < f1 → buf.length < f2 →
      parseLoop cfg grt f1 buf batch count = parseLoop cfg grt f2 buf batch count := by
  intro f1
  induction f1 with
  | zero =>
    intro f2 buf batch count h1 h2
    omega
  | succ f1 ih =>
    intro f2 buf batch count h1 h2
    match f2, h2 with
    | f2 + 1, h2 =>
      simp only [parseLoop]
      match hstep : scanStep cfg grt buf with
      | .halt => rfl
      | .fail e => rfl
      | .cont rest =>
        have := scanStep_cont_length cfg grt buf rest hstep
        exact ih f2 rest batch count (by omega) (by omega)
      | .packet p rest =>
        have := scanStep_packet_length cfg grt buf rest p hstep
        dsimp only
        by_cases hb : cfg.batch_size ≤ count + 1
        · simp only [if_pos hb, ih f2 rest [] 0 (by omega) (by omega)]
        · simp only [if_neg hb, ih f2 rest (batch ++ [p]) (count + 1) (by omega) (by omega)]

/-- One-iteration unfolding of `_parse_buffer`, phrased on the total
wrapper: this is the loop body of the source, with the cursor made
explicit. -/
theorem parseBufferFrom_step (cfg : BinaryExtractorConfig) (grt : Option ℚ)
    (buf : List ℕ) (batch : List TelemetryPacket) (count : ℕ) :
    parseBufferFrom cfg grt buf batch count =
      match scanStep cfg grt buf with
      | .halt => (flushBatch batch, none)
      | .fail e => ([], some e)
      | .cont rest => parseBufferFrom cfg grt rest batch count
      | .packet p rest =>
        if cfg.batch_size ≤ count + 1 then
          ((batch ++ [p]) :: (parseBufferFrom cfg grt rest [] 0).1,
            (parseBufferFrom cfg grt rest [] 0).2)
        else
          parseBufferFrom cfg grt rest (batch ++ [p]) (count + 1) := by
  rw [parseBufferFrom]
  conv_lhs => rw [parseLoop]
  match hstep : scanStep cfg grt buf with
  | .halt => rfl
  | .fail e => rfl
  | .cont rest =>
    have := scanStep_cont_length cfg grt buf rest hstep
    exact parseLoop_congr cfg grt buf.length (rest.length + 1) rest batch count
      (by omega) (by omega)
  | .packet p rest =>
    have := scanStep_packet_length cfg grt buf rest p hstep
    dsimp only
    by_cases hb : cfg.batch_size ≤ count + 1
    · simp only [if_pos hb,
        parseLoop_congr cfg grt buf.length (rest.length + 1) rest [] 0
          (by omega) (by omega)]
      rfl
    · simp only [if_neg hb]
      exact parseLoop_congr cfg grt buf.length (rest.length + 1) rest
        (batch ++ [p]) (count + 1) (by omega) (by omega)

/-! ## Behaviour of the scanner on encoded packet streams -/

theorem take_append_left (l1 l2 : List α) : (l1 ++ l2).take l1.length = l1 := by
  induction l1 with
  | nil => rfl
  | cons a t ih => simp [ih]

theorem drop_append_left (l1 l2 : List α) : (l1 ++ l2).drop l1.length = l2 := by
  induction l1 with
  | nil => rfl
  | cons a t ih => simp [ih]

theorem to_bytes_length (h : CCSDSPrimaryHeader) : h.to_bytes.length = 6 := rfl

/-- Encoding of one well-formed packet: header bytes followed by exactly the
declared data field. -/
def encodePacket (p : CCSDSPrimaryHeader × List ℕ) : List ℕ :=
  p.1.to_bytes ++ p.2

def encodePackets (ps : List (CCSDSPrimaryHeader × List ℕ)) : List ℕ :=
  (ps.map encodePacket).flatten

/-- The packet value the scanner constructs for header bytes `h.to_bytes`
and data field `d` (see `TelemetryPacket.from_bytes`). -/
def scanPacket (cfg : BinaryExtractorConfig) (grt : Option ℚ)
    (h : CCSDSPrimaryHeader) (d : List ℕ) : TelemetryPacket :=
  let sec := if h.sec_hdr_flag ≠ 0 ∧ 0 < cfg.sec_hdr_length
             then d.take cfg.sec_hdr_length else []
  { header := h, secondary_header := sec, user_data := d.drop sec.length,
    source_time_tai := none, ground_receipt_time := grt,
    source_id := cfg.source_id }

theorem packet_from_bytes_ok (cfg : BinaryExtractorConfig) (grt : Option ℚ)
    (b6 d : List ℕ) (h : CCSDSPrimaryHeader) (hlen : b6.length = 6)
    (hok : CCSDSPrimaryHeader.from_bytes b6 = .ok h)
    (hd : d.length = h.data_length + 1) :
    TelemetryPacket.from_bytes (b6 ++ d) cfg.sec_hdr_length grt cfg.source_id
      = .ok (scanPacket cfg grt h d) := by
  have htake : (b6 ++ d).take 6 = b6 := by
    rw [← hlen]
    exact take_append_left b6 d
  have hdrop : (b6 ++ d).drop 6 = d := by
    rw [← hlen]
    exact drop_append_left b6 d
  rw [TelemetryPacket.from_bytes, htake, hok]
  dsimp only
  rw [hdrop]
  have hdtake : d.take h.packet_data_length = d := by
    apply List.take_of_length_le
    simp [CCSDSPrimaryHeader.packet_data_length, hd]
  rw [hdtake]
  set sec := if h.sec_hdr_flag ≠ 0 ∧ 0 < cfg.sec_hdr_length
             then d.take cfg.sec_hdr_length else [] with hsec
  have hslen : sec.length ≤ d.length := by
    rw [hsec]
    by_cases hc : h.sec_hdr_flag ≠ 0 ∧ 0 < cfg.sec_hdr_length
    · rw [if_pos hc]
      simp [List.length_take]
    · rw [if_neg hc]
      simp
  rw [mkTelemetryPacket, if_neg]
  · rfl
  · simp only [List.length_drop, CCSDSPrimaryHeader.packet_data_length]
    omega

theorem scanStep_encode (cfg : BinaryExtractorConfig) (grt : Option ℚ)
    (h : CCSDSPrimaryHeader) (d rest : List ℕ)
    (hv : validateHeader h = true) (hd : d.length = h.data_length + 1)
    (hfs : cfg.frame_sync = false) (hfilt : cfg.apid_filter = none) :
    scanStep cfg grt (h.to_bytes ++ (d ++ rest)) = .packet (scanPacket cfg grt h d) rest := by
  rw [scanStep, hfs, if_neg (by simp)]
  rw [scanBody]
  have hlen : (h.to_bytes ++ (d ++ rest)).length = 6 + (d.length + rest.length) := by
    simp [to_bytes_length]
  rw [if_neg (by omega)]
  have htake : (h.to_bytes ++ (d ++ rest)).take 6 = h.to_bytes := by
    have := take_append_left h.to_bytes (d ++ rest)
    rwa [to_bytes_length] at this
  have hdrop : (h.to_bytes ++ (d ++ rest)).drop 6 = d ++ rest := by
    have := drop_append_left h.to_bytes (d ++ rest)
    rwa [to_bytes_length] at this
  rw [htake, from_bytes_to_bytes h hv]
  simp only [hdrop]
  have hpdl : h.packet_data_length = d.length := by
    simp [CCSDSPrimaryHeader.packet_data_length, hd]
  rw [if_neg (by simp [hpdl])]
  have hdtake : (d ++ rest).take h.packet_data_length = d := by
    rw [hpdl]
    exact take_append_left d rest
  have hddrop : (d ++ rest).drop h.packet_data_length = rest := by
    rw [hpdl]
    exact drop_append_left d rest
  rw [if_neg (by simp [apidFiltered, hfilt])]
  rw [hdtake, hddrop,
    packet_from_bytes_ok cfg grt h.to_bytes d h (to_bytes_length h)
      (from_bytes_to_bytes h hv) hd]

/-- Specification-side batching: group a packet stream into batches of `B`,
flushing the trailing partial batch only when non-empty. -/
def batchAccum (B : ℕ) : List α → List α → ℕ → List (List α)
  | [], batch, _ => if batch.isEmpty then [] else [batch]
  | p :: ps, batch, count =>
    if B ≤ count + 1 then (batch ++ [p]) :: batchAccum B ps [] 0
    else batchAccum B ps (batch ++ [p]) (count + 1)

/-- On a buffer of encoded well-formed back-to-back packets, the plain-mode
unfiltered scanner is exactly `batchAccum` over the decoded packets. -/
theorem parse_encode (cfg : BinaryExtractorConfig) (grt : Option ℚ)
    (hfs : cfg.frame_sync = false) (hfilt : cfg.apid_filter = none) :
    ∀ (ps : List (CCSDSPrimaryHeader × List ℕ)) batch count,
      (∀ p ∈ ps, validateHeader p.1 = true ∧ p.2.length = p.1.data_length + 1) →
      parseBufferFrom cfg grt (encodePackets ps) batch count =
        (batchAccum cfg.batch_size (ps.map (fun p => scanPacket cfg grt p.1 p.2)) batch count,
         none) := by
  intro ps
  induction ps with
  | nil =>
    intro batch count hwf
    have hempty : encodePackets [] = [] := rfl
    rw [hempty, parseBufferFrom_step]
    have hstep : scanStep cfg grt [] = .halt := by
      rw [scanStep, hfs, if_neg (by simp), scanBody, if_pos (by simp)]
    rw [hstep]
    simp [batchAccum, flushBatch]
  | cons p ps ih =>
    intro batch count hwf
    obtain ⟨hv, hd⟩ := hwf p (by simp)
    have henc : encodePackets (p :: ps) = p.1.to_bytes ++ (p.2 ++ encodePackets ps) := by
      simp [encodePackets, encodePacket, List.flatten]
    rw [henc, parseBufferFrom_step,
      scanStep_encode cfg grt p.1 p.2 (encodePackets ps) hv hd hfs hfilt]
    dsimp only
    have ihtail := ih batch count (fun q hq => hwf q (by simp [hq]))
    by_cases hb : cfg.batch_size ≤ count + 1
    · rw [if_pos hb]
      rw [ih [] 0 (fun q hq => hwf q (by simp [hq]))]
      simp only [List.map_cons, batchAccum, if_pos hb]
    · rw [if_neg hb]
      rw [ih (batch ++ [scanPacket cfg grt p.1 p.2]) (count + 1)
        (fun q hq => hwf q (by simp [hq]))]
      simp only [List.map_cons, batchAccum, if_neg hb]

theorem batchAccum_flatten (B : ℕ) :
    ∀ (ps : List α) batch count, (batchAccum B ps batch count).flatten = batch ++ ps := by
  intro ps
  induction ps with
  | nil =>
    intro batch count
    by_cases hb : batch.isEmpty
    · rw [batchAccum, if_pos hb]
      simp [List.isEmpty_iff.mp hb]
    · rw [batchAccum, if_neg hb]
      simp
  | cons p ps ih =>
    intro batch count
    rw [batchAccum]
    by_cases hb : B ≤ count + 1
    · rw [if_pos hb]
      simp [ih]
    · rw [if_neg hb]
      simp [ih]

theorem batchAccum_ne_nil (B : ℕ) :
    ∀ (ps : List α) batch count b, b ∈ batchAccum B ps batch count → b ≠ [] := by
  intro ps
  induction ps with
  | nil =>
    intro batch count b hmem
    by_cases hb : batch.isEmpty
    · rw [batchAccum, if_pos hb] at hmem
      simp at hmem
    · rw [batchAccum, if_neg hb] at hmem
      simp at hmem
      subst hmem
      simpa [List.isEmpty_iff] using hb
  | cons p ps ih =>
    intro batch count b hmem
    rw [batchAccum] at hmem
    by_cases hb : B ≤ count + 1
    · rw [if_pos hb] at hmem
      rcases List.mem_cons.mp hmem with h | h
      · subst h
        simp
      · exact ih [] 0 b h
    · rw [if_neg hb] at hmem
      exact ih (batch ++ [p]) (count + 1) b hmem

theorem batchAccum_length (B : ℕ) :
    ∀ (ps : List α) batch count, count < B → batch.length = count →
      (batchAccum B ps batch count).length = (ps.length + count + B - 1) / B := by
  intro ps
  induction ps with
  | nil =>
    intro batch count hcb hlen
    rw [batchAccum]
    by_cases hb : batch.isEmpty
    · rw [if_pos hb]
      have hbe : batch = [] := List.isEmpty_iff.mp hb
      subst hbe
      simp only [List.length_nil] at hlen
      simp only [List.length_nil]
      rw [Nat.div_eq_of_lt (by omega)]
    · rw [if_neg hb]
      have hpos : 0 < count := by
        rcases Nat.eq_zero_or_pos count with h | h
        · exfalso
          apply hb
          rw [List.isEmpty_iff, ← List.length_eq_zero]
          omega
        · exact h
      simp only [List.length_singleton, List.length_nil]
      have h1 : 0 + count + B - 1 = (count - 1) + B := by omega
      rw [h1, Nat.add_div_right _ (by omega), Nat.div_eq_of_lt (by omega)]
  | cons p ps ih =>
    intro batch count hcb hlen
    rw [batchAccum]
    by_cases hb : B ≤ count + 1
    · rw [if_pos hb]
      rw [List.length_cons, ih [] 0 (by omega) rfl]
      simp only [Nat.add_zero]
      have h1 : (p :: ps).length + count + B - 1 = (ps.length + B - 1) + B := by
        simp only [List.length_cons]
        omega
      rw [h1, Nat.add_div_right _ (by omega)]
    · rw [if_neg hb]
      rw [ih (batch ++ [p]) (count + 1) (by omega) (by simp [hlen])]
      have h2 : (p :: ps).length + count + B - 1 = ps.length + (count + 1) + B - 1 := by
        simp only [List.length_cons]
        omega
      rw [h2]

theorem batchAccum_sizes (B : ℕ) :
    ∀ (ps : List α) batch count, count < B → batch.length = count →
      ∀ i, i + 1 < (batchAccum B ps batch count).length →
        ((batchAccum B ps batch count).getD i []).length = B := by
  intro ps
  induction ps with
  | nil =>
    intro batch count hcb hlen i hi
    exfalso
    by_cases hb : batch.isEmpty
    · rw [batchAccum, if_pos hb] at hi
      simp at hi
    · rw [batchAccum, if_neg hb] at hi
      simp at hi
  | cons p ps ih =>
    intro batch count hcb hlen i hi
    rw [batchAccum] at hi ⊢
    by_cases hb : B ≤ count + 1
    · rw [if_pos hb] at hi ⊢
      match i with
      | 0 =>
        simp only [List.getD_cons_zero, List.length_append, List.length_cons,
          List.length_nil, hlen]
        omega
      | i + 1 =>
        rw [List.getD_cons_succ]
        apply ih [] 0 (by omega) rfl
        simp only [List.length_cons] at hi
        omega
    · rw [if_neg hb] at hi ⊢
      exact ih (batch ++ [p]) (count + 1) (by omega) (by simp [hlen]) i hi

/-- Behaviour of a plain-mode iteration at any 6 decodable bytes followed by
at least the declared data field: one whole packet is consumed. -/
theorem scanStep_ok (cfg : BinaryExtractorConfig) (grt : Option ℚ)
    (b6 tail : List ℕ) (h : CCSDSPrimaryHeader)
    (hlen : b6.length = 6) (hok : CCSDSPrimaryHeader.from_bytes b6 = .ok h)
    (hfs : cfg.frame_sync = false) (hfilt : cfg.apid_filter = none)
    (hfit : h.packet_data_length ≤ tail.length) :
    scanStep cfg grt (b6 ++ tail)
      = .packet (scanPacket cfg grt h (tail.take h.packet_data_length))
          (tail.drop h.packet_data_length) := by
  rw [scanStep, hfs, if_neg (by simp), scanBody]
  have hlen2 : (b6 ++ tail).length = 6 + tail.length := by simp [hlen]
  rw [if_neg (by omega)]
  have htake : (b6 ++ tail).take 6 = b6 := by
    rw [← hlen]
    exact take_append_left b6 tail
  have hdrop : (b6 ++ tail).drop 6 = tail := by
    rw [← hlen]
    exact drop_append_left b6 tail
  rw [htake, hok]
  simp only [hdrop]
  rw [if_neg (by omega)]
  rw [if_neg (by simp [apidFiltered, hfilt])]
  have hdl : (tail.take h.packet_data_length).length = h.data_length + 1 := by
    rw [List.length_take]
    simp only [CCSDSPrimaryHeader.packet_data_length] at hfit ⊢
    omega
  rw [packet_from_bytes_ok cfg grt b6 (tail.take h.packet_data_length) h hlen hok hdl]

/-- Behaviour of a plain-mode iteration when fewer bytes remain than the
decoded header declares: the scan ends. -/
theorem scanStep_short (cfg : BinaryExtractorConfig) (grt : Option ℚ)
    (b6 tail : List ℕ) (h : CCSDSPrimaryHeader)
    (hlen : b6.length = 6) (hok : CCSDSPrimaryHeader.from_bytes b6 = .ok h)
    (hfs : cfg.frame_sync = false)
    (hshort : tail.length < h.packet_data_length) :
    scanStep cfg grt (b6 ++ tail) = .halt := by
  rw [scanStep, hfs, if_neg (by simp), scanBody]
  have hlen2 : (b6 ++ tail).length = 6 + tail.length := by simp [hlen]
  rw [if_neg (by omega)]
  have htake : (b6 ++ tail).take 6 = b6 := by
    rw [← hlen]
    exact take_append_left b6 tail
  have hdrop : (b6 ++ tail).drop 6 = tail := by
    rw [← hlen]
    exact drop_append_left b6 tail
  rw [htake, hok]
  simp only [hdrop]
  rw [if_pos (by omega)]

/-- A fixed well-formed sample packet used by concrete evaluations:
APID 5, unsegmented, sequence count 1, one byte of user data. -/
def sampleHeader : CCSDSPrimaryHeader :=
  { version := 0, type_flag := 0, sec_hdr_flag := 0, apid := 5,
    seq_flags := 3, seq_count := 1, data_length := 0 }

/-! ## Claim theorems for the header codec and scanner -/

/-- Claim C4: for every valid primary header (each field within its declared
bit range), encoding to 6 bytes and decoding returns a header equal to the
original. -/
theorem C4_header_roundtrip (h : CCSDSPrimaryHeader)
    (hv : h.version ≤ 7 ∧ h.type_flag ≤ 1 ∧ h.sec_hdr_flag ≤ 1 ∧ h.apid ≤ 2047 ∧
      h.seq_flags ≤ 3 ∧ h.seq_count ≤ 16383 ∧ h.data_length ≤ 65535) :
    CCSDSPrimaryHeader.from_bytes h.to_bytes = .ok h := by
  apply from_bytes_to_bytes
  simp only [validateHeader, Bool.and_eq_true, decide_eq_true_eq]
  omega

theorem C4_header_roundtrip_witness :
    CCSDSPrimaryHeader.from_bytes
      (CCSDSPrimaryHeader.to_bytes
        { version := 5, type_flag := 1, sec_hdr_flag := 1, apid := 1234,
          seq_flags := 2, seq_count := 9999, data_length := 511 })
      = .ok { version := 5, type_flag := 1, sec_hdr_flag := 1, apid := 1234,
              seq_flags := 2, seq_count := 9999, data_length := 511 } :=
  C4_header_roundtrip _ (by decide)

/-- Claim C10: header decoding is total on any 6 or more available bytes —
every field is masked into its declared range, so the construction-time
validation always passes and only short inputs are rejected. -/
theorem C10_decode_total (raw : List ℕ) (hlen : 6 ≤ raw.length)
    (hbytes : ∀ b ∈ raw, b < 256) :
    ∃ h, CCSDSPrimaryHeader.from_bytes raw = .ok h ∧ validateHeader h = true ∧
      h.version ≤ 7 ∧ h.type_flag ≤ 1 ∧ h.sec_hdr_flag ≤ 1 ∧ h.apid ≤ 2047 ∧
      h.seq_flags ≤ 3 ∧ h.seq_count ≤ 16383 ∧ h.data_length ≤ 65535 := by
  obtain ⟨h, hok, hval⟩ := from_bytes_total raw hlen hbytes
  refine ⟨h, hok, hval, ?_⟩
  simp only [validateHeader, Bool.and_eq_true, decide_eq_true_eq] at hval
  omega

theorem C10_decode_total_witness :
    ∃ h, CCSDSPrimaryHeader.from_bytes [255, 255, 255, 255, 255, 255] = .ok h ∧
      validateHeader h = true ∧
      h.version ≤ 7 ∧ h.type_flag ≤ 1 ∧ h.sec_hdr_flag ≤ 1 ∧ h.apid ≤ 2047 ∧
      h.seq_flags ≤ 3 ∧ h.seq_count ≤ 16383 ∧ h.data_length ≤ 65535 :=
  C10_decode_total [255, 255, 255, 255, 255, 255] (by decide) (by decide)

/-- Claim C9: a successfully constructed `TelemetryPacket` always satisfies
`len(secondary_header) + len(user_data) = header.packet_data_length`, stores
its inputs verbatim (no truncation or padding), and construction fails on
any violating input. -/
theorem C9_packet_invariant (h : CCSDSPrimaryHeader) (sec user : List ℕ)
    (stt grt : Option ℚ) (sid : Option String) :
    (∀ p, mkTelemetryPacket h sec user stt grt sid = .ok p →
      p.secondary_header.length + p.user_data.length = p.header.packet_data_length ∧
      p.header = h ∧ p.secondary_header = sec ∧ p.user_data = user ∧
      p.source_time_tai = stt ∧ p.ground_receipt_time = grt ∧ p.source_id = sid) ∧
    (sec.length + user.length ≠ h.packet_data_length →
      mkTelemetryPacket h sec user stt grt sid = .error ("Packet data field mismatch")) := by
  constructor
  · intro p hp
    rw [mkTelemetryPacket] at hp
    by_cases hc : sec.length + user.length ≠ h.packet_data_length
    · rw [if_pos hc] at hp
      cases hp
    · rw [if_neg hc] at hp
      injection hp with hp2
      subst hp2
      push_neg at hc
      exact ⟨hc, rfl, rfl, rfl, rfl, rfl, rfl⟩
  · intro hc
    rw [mkTelemetryPacket, if_pos hc]

theorem C9_packet_invariant_witness :
    (∀ p, mkTelemetryPacket sampleHeader [] [0x7f] none none none = .ok p →
      p.secondary_header.length + p.user_data.length = p.header.packet_data_length ∧
      p.header = sampleHeader ∧ p.secondary_header = [] ∧ p.user_data = [0x7f] ∧
      p.source_time_tai = none ∧ p.ground_receipt_time = none ∧ p.source_id = none) ∧
    (([] : List ℕ).length + ([0x7f] : List ℕ).length ≠ sampleHeader.packet_data_length →
      mkTelemetryPacket sampleHeader [] [0x7f] none none none
        = .error ("Packet data field mismatch")) :=
  C9_packet_invariant sampleHeader [] [0x7f] none none none

/-- Claim C2 (counterexample): the corrupted 6 bytes
`[0x00, 0x05, 0xC0, 0x01, 0xFF, 0xFF]` — a packet header whose length field
was corrupted to 0xFFFF — pass header validation (so no skip-and-retry can
occur), and a plain-mode scan of this single corrupted packet followed by an
intact well-formed packet yields zero packets: the corrupted packet costs
the intact packet as well, not at most its own bytes. -/
theorem C2_counterexample :
    CCSDSPrimaryHeader.from_bytes [0x00, 0x05, 0xC0, 0x01, 0xFF, 0xFF]
      = .ok { version := 0, type_flag := 0, sec_hdr_flag := 0, apid := 5,
              seq_flags := 3, seq_count := 1, data_length := 0xFFFF } ∧
    validateHeader sampleHeader = true ∧
    (encodePacket (sampleHeader, [0x7f])).length = 7 ∧
    parseBuffer {} none
      ([0x00, 0x05, 0xC0, 0x01, 0xFF, 0xFF] ++ encodePacket (sampleHeader, [0x7f]))
      = ([], none) := by
  refine ⟨by rfl, by decide, by decide, by decide⟩

/-- Claim C2 (amended): in plain mode the 6 bytes at the cursor never fail
header validation, so the skip-one-byte path never runs; the scanner always
consumes the 6 bytes plus the declared data field as one packet, or ends
the scan when fewer bytes remain than declared — it never advances the
cursor by a single byte. -/
theorem C2_no_one_byte_skip (cfg : BinaryExtractorConfig) (grt : Option ℚ)
    (junk6 tail : List ℕ) (hlen : junk6.length = 6) (hb : ∀ x ∈ junk6, x < 256)
    (hfs : cfg.frame_sync = false) (hfilt : cfg.apid_filter = none)
    (hB : 2 ≤ cfg.batch_size) :
    ∃ h, CCSDSPrimaryHeader.from_bytes junk6 = .ok h ∧
      (h.data_length + 1 ≤ tail.length →
        parseBuffer cfg grt (junk6 ++ tail)
          = parseBufferFrom cfg grt (tail.drop (h.data_length + 1))
              [scanPacket cfg grt h (tail.take (h.data_length + 1))] 1) ∧
      (tail.length < h.data_length + 1 →
        parseBuffer cfg grt (junk6 ++ tail) = ([], none)) := by
  obtain ⟨h, hok, hval⟩ := from_bytes_total junk6 (by omega) hb
  have hpdl : h.packet_data_length = h.data_length + 1 := rfl
  refine ⟨h, hok, ?_, ?_⟩
  · intro hfit
    rw [parseBuffer, parseBufferFrom_step,
      scanStep_ok cfg grt junk6 tail h hlen hok hfs hfilt (by omega)]
    dsimp only
    rw [if_neg (by omega), hpdl]
    simp only [List.nil_append]
  · intro hshort
    rw [parseBuffer, parseBufferFrom_step,
      scanStep_short cfg grt junk6 tail h hlen hok hfs (by omega)]
    rfl

theorem C2_no_one_byte_skip_witness :
    ∃ h, CCSDSPrimaryHeader.from_bytes [0xA7, 0x33, 0x11, 0x22, 0x00, 0x01] = .ok h ∧
      (h.data_length + 1 ≤ ([5, 6, 7] : List ℕ).length →
        parseBuffer {} none ([0xA7, 0x33, 0x11, 0x22, 0x00, 0x01] ++ [5, 6, 7])
          = parseBufferFrom {} none (([5, 6, 7] : List ℕ).drop (h.data_length + 1))
              [scanPacket {} none h (([5, 6, 7] : List ℕ).take (h.data_length + 1))] 1) ∧
      (([5, 6, 7] : List ℕ).length < h.data_length + 1 →
        parseBuffer {} none ([0xA7, 0x33, 0x11, 0x22, 0x00, 0x01] ++ [5, 6, 7]) = ([], none)) :=
  C2_no_one_byte_skip {} none [0xA7, 0x33, 0x11, 0x22, 0x00, 0x01] [5, 6, 7]
    (by decide) (by decide) rfl rfl (by decide)

/-- Claim C3 (code bug, evaluated at the failing input): the 4-byte sync
marker preceded by the single garbage byte `0x1A` is missed — after the
failed candidate `1A 1A CF FC` the seek resumes 4 bytes later instead of
rewinding — so a frame-sync scan of garbage `[0x1A]`, the marker, and a
well-formed packet recovers nothing, while the same packet behind
`0x1A`-free garbage is recovered. -/
theorem C3_sync_marker_missed :
    validateHeader sampleHeader = true ∧
    (encodePacket (sampleHeader, [0x7f])).length = 7 ∧
    seekToSync ([0x1a] ++ SYNC_MARKER) = none ∧
    parseBuffer { frame_sync := true } none
      ([0x1a] ++ SYNC_MARKER ++ encodePacket (sampleHeader, [0x7f])) = ([], none) ∧
    parseBuffer { frame_sync := true } none
      ([0xff, 0xff] ++ SYNC_MARKER ++ encodePacket (sampleHeader, [0x7f]))
      = ([[scanPacket { frame_sync := true } none sampleHeader [0x7f]]], none) := by
  refine ⟨by decide, by decide, by decide, by decide, by decide⟩

/-- Claim C6: for a buffer of N encoded well-formed back-to-back packets,
plain mode, no APID filter, batch size B > 0: the scan raises nothing and
yields ceil(N/B) batches, none empty, every non-final batch of size exactly
B, and the batch sizes summing to N. -/
theorem C6_batching (cfg : BinaryExtractorConfig) (grt : Option ℚ)
    (ps : List (CCSDSPrimaryHeader × List ℕ))
    (hwf : ∀ p ∈ ps, validateHeader p.1 = true ∧ p.2.length = p.1.data_length + 1)
    (hfs : cfg.frame_sync = false) (hfilt : cfg.apid_filter = none)
    (hB : 0 < cfg.batch_size) :
    (parseBuffer cfg grt (encodePackets ps)).2 = none ∧
    (parseBuffer cfg grt (encodePackets ps)).1.length
      = (ps.length + cfg.batch_size - 1) / cfg.batch_size ∧
    ((parseBuffer cfg grt (encodePackets ps)).1.map List.length).sum = ps.length ∧
    (∀ b ∈ (parseBuffer cfg grt (encodePackets ps)).1, b ≠ []) ∧
    (∀ i, i + 1 < (parseBuffer cfg grt (encodePackets ps)).1.length →
      ((parseBuffer cfg grt (encodePackets ps)).1.getD i []).length = cfg.batch_size) := by
  have hpe := parse_encode cfg grt hfs hfilt ps [] 0 hwf
  rw [parseBuffer] at *
  rw [hpe]
  set qs := ps.map (fun p => scanPacket cfg grt p.1 p.2) with hqs
  have hqlen : qs.length = ps.length := by simp [hqs]
  refine ⟨rfl, ?_, ?_, ?_, ?_⟩
  · rw [batchAccum_length cfg.batch_size qs [] 0 hB rfl]
    rw [hqlen]
    simp only [Nat.add_zero]
  · have hflat := batchAccum_flatten cfg.batch_size qs [] 0
    have := congrArg List.length hflat
    rw [List.length_flatten] at this
    simp only [List.nil_append] at this
    rw [this, hqlen]
  · intro b hmem
    exact batchAccum_ne_nil cfg.batch_size qs [] 0 b hmem
  · intro i hi
    exact batchAccum_sizes cfg.batch_size qs [] 0 hB rfl i hi

theorem C6_batching_witness :
    ((parseBuffer { batch_size := 2 } none
        (encodePackets [(sampleHeader, [1]), (sampleHeader, [2]), (sampleHeader, [3])])).2
      = none ∧
    (parseBuffer { batch_size := 2 } none
        (encodePackets [(sampleHeader, [1]), (sampleHeader, [2]), (sampleHeader, [3])])).1.length
      = (([(sampleHeader, ([1] : List ℕ)), (sampleHeader, [2]),
          (sampleHeader, [3])] : List (CCSDSPrimaryHeader × List ℕ)).length + 2 - 1) / 2 ∧
    ((parseBuffer { batch_size := 2 } none
        (encodePackets [(sampleHeader, [1]), (sampleHeader, [2]), (sampleHeader, [3])])).1.map
        List.length).sum
      = ([(sampleHeader, ([1] : List ℕ)), (sampleHeader, [2]),
          (sampleHeader, [3])] : List (CCSDSPrimaryHeader × List ℕ)).length ∧
    (∀ b ∈ (parseBuffer { batch_size := 2 } none
        (encodePackets [(sampleHeader, [1]), (sampleHeader, [2]), (sampleHeader, [3])])).1,
      b ≠ []) ∧
    (∀ i, i + 1 < (parseBuffer { batch_size := 2 } none
        (encodePackets [(sampleHeader, [1]), (sampleHeader, [2]), (sampleHeader, [3])])).1.length →
      ((parseBuffer { batch_size := 2 } none
        (encodePackets [(sampleHeader, [1]), (sampleHeader, [2]), (sampleHeader, [3])])).1.getD
          i []).length = 2)) :=
  C6_batching { batch_size := 2 } none
    [(sampleHeader, [1]), (sampleHeader, [2]), (sampleHeader, [3])]
    (by decide) rfl rfl (by decide)

/-! ## Calibration engine (`src/mdp/plugins/transformers/calibration.py`)

Python floats are modelled by `ℚ`; every value the spec exercises is exactly
representable, and the interpolation arithmetic is the source expression
verbatim. -/

/-- CPython `bisect.bisect_right` binary-search loop, with fuel (`hi - lo`
shrinks every iteration, so `a.length` units always suffice). -/
def bisectRightGo (a : List ℚ) (x : ℚ) : ℕ → ℕ → ℕ → ℕ
  | 0, lo, _ => lo
  | fuel + 1, lo, hi =>
    if lo < hi then
      let mid := (lo + hi) / 2
      if x < a.getD mid 0 then bisectRightGo a x fuel lo mid
      else bisectRightGo a x fuel (mid + 1) hi
    else lo

def bisect_right (a : List ℚ) (x : ℚ) : ℕ :=
  bisectRightGo a x a.length 0 a.length

/-- `_interpolate`: clamp below the first and above the last breakpoint,
otherwise linear interpolation on the `bisect_right`-located interval.
Python indexes `xs[0]`/`xs[-1]` (raising on an empty table); `apply` only
calls this with non-empty tables, and the embedding totalises the accesses
with `getD`. -/
def interpolate (x : ℚ) (xs ys : List ℚ) : ℚ :=
  if x ≤ xs.getD 0 0 then ys.getD 0 0
  else if xs.getD (xs.length - 1) 0 ≤ x then ys.getD (ys.length - 1) 0
  else
    let idx := bisect_right xs x - 1
    let x0 := xs.getD idx 0
    let x1 := xs.getD (idx + 1) 0
    let y0 := ys.getD idx 0
    let y1 := ys.getD (idx + 1) 0
    let t := (x - x0) / (x1 - x0)
    y0 + t * (y1 - y0)

inductive CalibrationMethod
  | polynomial
  | table
  | identity
deriving DecidableEq, Repr

structure CalibrationEntry where
  parameter_name : String
  method : CalibrationMethod := .identity
  unit : Option String := none
  coefficients : Option (List ℚ) := none
  table_raw : Option (List ℚ) := none
  table_eng : Option (List ℚ) := none
deriving DecidableEq, Repr

/-- The `enumerate`-driven polynomial evaluation loop in
`CalibrationEntry.apply`. -/
def polyEval (cs : List ℚ) (raw : ℚ) : ℚ :=
  cs.enum.foldl (fun result pc => result + pc.2 * raw ^ pc.1) 0

/-- `CalibrationEntry.apply`; Python truthiness makes `None` and the empty
list both fall back to the raw value. -/
def CalibrationEntry.apply (e : CalibrationEntry) (raw : ℚ) : ℚ :=
  match e.method with
  | .polynomial =>
    match e.coefficients with
    | none => raw
    | some cs => if cs.isEmpty then raw else polyEval cs raw
  | .table =>
    match e.table_raw, e.table_eng with
    | some xs, some ys => if xs.isEmpty || ys.isEmpty then raw else interpolate raw xs ys
    | some _, none => raw
    | none, _ => raw
  | .identity => raw

theorem bisectRightGo_correct (a : List ℚ) (x : ℚ) :
    ∀ fuel lo hi, hi - lo ≤ fuel → lo ≤ hi →
      lo ≤ bisectRightGo a x fuel lo hi ∧ bisectRightGo a x fuel lo hi ≤ hi ∧
      (lo < bisectRightGo a x fuel lo hi →
        a.getD (bisectRightGo a x fuel lo hi - 1) 0 ≤ x) ∧
      (bisectRightGo a x fuel lo hi < hi →
        x < a.getD (bisectRightGo a x fuel lo hi) 0) := by
  intro fuel
  induction fuel with
  | zero =>
    intro lo hi hfuel hle
    have : lo = hi := by omega
    subst this
    rw [bisectRightGo]
    exact ⟨le_rfl, le_rfl, by omega, by omega⟩
  | succ fuel ih =>
    intro lo hi hfuel hle
    rw [bisectRightGo]
    by_cases hlh : lo < hi
    · rw [if_pos hlh]
      dsimp only
      by_cases hx : x < a.getD ((lo + hi) / 2) 0
      · rw [if_pos hx]
        obtain ⟨h1, h2, h3, h4⟩ := ih lo ((lo + hi) / 2) (by omega) (by omega)
        refine ⟨h1, by omega, h3, ?_⟩
        intro hr
        by_cases hmid : bisectRightGo a x fuel lo ((lo + hi) / 2) < (lo + hi) / 2
        · exact h4 hmid
        · have : bisectRightGo a x fuel lo ((lo + hi) / 2) = (lo + hi) / 2 := by omega
          rw [this]
          exact hx
      · rw [if_neg hx]
        obtain ⟨h1, h2, h3, h4⟩ := ih ((lo + hi) / 2 + 1) hi (by omega) (by omega)
        refine ⟨by omega, h2, ?_, h4⟩
        intro hr
        by_cases hmid : (lo + hi) / 2 + 1 < bisectRightGo a x fuel ((lo + hi) / 2 + 1) hi
        · exact h3 hmid
        · have : bisectRightGo a x fuel ((lo + hi) / 2 + 1) hi = (lo + hi) / 2 + 1 := by
            omega
          rw [this]
          simpa using not_lt.mp hx
    · rw [if_neg hlh]
      exact ⟨le_rfl, hle, by omega, by omega⟩

theorem bisect_right_correct (a : List ℚ) (x : ℚ) :
    bisect_right a x ≤ a.length ∧
    (0 < bisect_right a x → a.getD (bisect_right a x - 1) 0 ≤ x) ∧
    (bisect_right a x < a.length → x < a.getD (bisect_right a x) 0) := by
  obtain ⟨h1, h2, h3, h4⟩ :=
    bisectRightGo_correct a x a.length 0 a.length (by omega) (by omega)
  exact ⟨h2, h3, h4⟩

theorem getD_eq_get (l : List ℚ) (i : ℕ) (h : i < l.length) :
    l.getD i 0 = l.get ⟨i, h⟩ := by
  rw [List.getD_eq_getElem?_getD, List.getElem?_eq_getElem h]
  rfl

theorem chain'_lt_getD (xs : List ℚ) (hs : List.Chain' (· < ·) xs)
    (i j : ℕ) (hij : i < j) (hj : j < xs.length) :
    xs.getD i 0 < xs.getD j 0 := by
  have hp : List.Pairwise (· < ·) xs := List.chain'_iff_pairwise.mp hs
  rw [getD_eq_get xs i (by omega), getD_eq_get xs j hj]
  exact List.pairwise_iff_get.mp hp ⟨i, by omega⟩ ⟨j, hj⟩ (by simpa using hij)

/-- Claim C7: table calibration over breakpoints with strictly ascending raw
values is clamped piecewise-linear interpolation: at or below the first
breakpoint it returns the first engineering value, at or above the last it
returns the last, and strictly inside it returns the linear interpolant on
the bracketing interval. -/
theorem C7_table_calibration (xs ys : List ℚ) (x : ℚ)
    (hne : xs ≠ []) (hlen : xs.length = ys.length)
    (hsorted : List.Chain' (· < ·) xs) :
    (x ≤ xs.getD 0 0 →
      CalibrationEntry.apply
        { parameter_name := "p", method := .table,
          table_raw := some xs, table_eng := some ys } x = ys.getD 0 0) ∧
    (xs.getD (xs.length - 1) 0 ≤ x →
      CalibrationEntry.apply
        { parameter_name := "p", method := .table,
          table_raw := some xs, table_eng := some ys } x
        = ys.getD (ys.length - 1) 0) ∧
    (xs.getD 0 0 < x → x < xs.getD (xs.length - 1) 0 →
      ∃ i, i + 1 < xs.length ∧ xs.getD i 0 ≤ x ∧ x < xs.getD (i + 1) 0 ∧
        CalibrationEntry.apply
          { parameter_name := "p", method := .table,
            table_raw := some xs, table_eng := some ys } x
          = ys.getD i 0
            + (x - xs.getD i 0) / (xs.getD (i + 1) 0 - xs.getD i 0)
              * (ys.getD (i + 1) 0 - ys.getD i 0)) := by
  have hxslen : 0 < xs.length := List.length_pos.mpr hne
  have hysne : ys ≠ [] := by
    intro h
    subst h
    simp only [List.length_nil] at hlen
    omega
  have happly : CalibrationEntry.apply
      { parameter_name := "p", method := .table,
        table_raw := some xs, table_eng := some ys } x = interpolate x xs ys := by
    rw [CalibrationEntry.apply]
    dsimp only
    rw [if_neg]
    simp [List.isEmpty_iff, hne, hysne]
  refine ⟨?_, ?_, ?_⟩
  · intro hx
    rw [happly, interpolate, if_pos hx]
  · intro hlast
    rw [happly, interpolate]
    by_cases hx0 : x ≤ xs.getD 0 0
    · rw [if_pos hx0]
      rcases Nat.lt_or_ge xs.length 2 with hsmall | hbig
      · have h1 : xs.length = 1 := by omega
        have h2 : ys.length = 1 := by omega
        rw [h2]
      · exfalso
        have := chain'_lt_getD xs hsorted 0 (xs.length - 1) (by omega) (by omega)
        have : xs.getD 0 0 < xs.getD 0 0 := lt_of_lt_of_le (lt_of_lt_of_le this hlast) hx0
        exact lt_irrefl _ this
    · rw [if_neg hx0, if_pos hlast]
  · intro h0 hl
    rw [happly, interpolate, if_neg (not_le.mpr h0), if_neg (not_le.mpr hl)]
    obtain ⟨hb1, hb2, hb3⟩ := bisect_right_correct xs x
    have hrpos : 0 < bisect_right xs x := by
      by_contra hc
      have hz : bisect_right xs x = 0 := by omega
      have := hb3 (by omega)
      rw [hz] at this
      exact absurd h0 (not_lt.mpr (le_of_lt this))
    have hrlt : bisect_right xs x < xs.length := by
      rcases Nat.lt_or_ge (bisect_right xs x) xs.length with h | h
      · exact h
      · exfalso
        have heq : bisect_right xs x = xs.length := by omega
        have := hb2 hrpos
        rw [heq] at this
        exact absurd hl (not_lt.mpr this)
    refine ⟨bisect_right xs x - 1, by omega, ?_, ?_, ?_⟩
    · exact hb2 hrpos
    · have h1 : bisect_right xs x - 1 + 1 = bisect_right xs x := by omega
      rw [h1]
      exact hb3 hrlt
    · dsimp only

theorem C7_table_calibration_witness :
    (CalibrationEntry.apply
      { parameter_name := "t", method := .table,
        table_raw := some [0, 100, 200], table_eng := some [0, 10, 20] } 50 = 5 ∧
     CalibrationEntry.apply
      { parameter_name := "t", method := .table,
        table_raw := some [0, 100, 200], table_eng := some [0, 10, 20] } (-10) = 0 ∧
     CalibrationEntry.apply
      { parameter_name := "t", method := .table,
        table_raw := some [0, 100, 200], table_eng := some [0, 10, 20] } 300 = 20) ∧
    ((50 : ℚ) ≤ ([0, 100, 200] : List ℚ).getD 0 0 →
      CalibrationEntry.apply
        { parameter_name := "p", method := .table,
          table_raw := some [0, 100, 200], table_eng := some [0, 10, 20] } 50
        = ([0, 10, 20] : List ℚ).getD 0 0) ∧
    (([0, 100, 200] : List ℚ).getD (([0, 100, 200] : List ℚ).length - 1) 0 ≤ 50 →
      CalibrationEntry.apply
        { parameter_name := "p", method := .table,
          table_raw := some [0, 100, 200], table_eng := some [0, 10, 20] } 50
        = ([0, 10, 20] : List ℚ).getD (([0, 10, 20] : List ℚ).length - 1) 0) ∧
    (([0, 100, 200] : List ℚ).getD 0 0 < 50 →
      (50 : ℚ) < ([0, 100, 200] : List ℚ).getD (([0, 100, 200] : List ℚ).length - 1) 0 →
      ∃ i, i + 1 < ([0, 100, 200] : List ℚ).length ∧
        ([0, 100, 200] : List ℚ).getD i 0 ≤ 50 ∧
        (50 : ℚ) < ([0, 100, 200] : List ℚ).getD (i + 1) 0 ∧
        CalibrationEntry.apply
          { parameter_name := "p", method := .table,
            table_raw := some [0, 100, 200], table_eng := some [0, 10, 20] } 50
          = ([0, 10, 20] : List ℚ).getD i 0
            + (50 - ([0, 100, 200] : List ℚ).getD i 0)
              / (([0, 100, 200] : List ℚ).getD (i + 1) 0 - ([0, 100, 200] : List ℚ).getD i 0)
              * (([0, 10, 20] : List ℚ).getD (i + 1) 0 - ([0, 10, 20] : List ℚ).getD i 0)) :=
  ⟨⟨by norm_num [CalibrationEntry.apply, interpolate, bisect_right, bisectRightGo],
    by norm_num [CalibrationEntry.apply, interpolate, bisect_right, bisectRightGo],
    by norm_num [CalibrationEntry.apply, interpolate, bisect_right, bisectRightGo]⟩,
   C7_table_calibration [0, 100, 200] [0, 10, 20] 50 (by simp) (by simp)
     (by norm_num [List.chain'_cons, List.chain'_singleton])⟩

/-! ## Parameter and dataset models (`src/mdp/models/parameter.py`,
`src/mdp/models/dataset.py`)

Python dicts are embedded as association lists in insertion order (dict
semantics: update in place, append new keys at the end). -/

inductive ParameterType
  | uint
  | int
  | float
  | double
  | boolean
  | enumerated
  | binary
  | string
deriving DecidableEq, Repr

/-- Python scalar values flowing through decommutation.  IEEE float fields
are carried as their raw bit pattern: their numeric value is floating point
and not modelled, and no claim inspects it. -/
inductive PyValue
  | intv : ℤ → PyValue
  | ratv : ℚ → PyValue
  | boolv : Bool → PyValue
  | strv : String → PyValue
  | bytesv : List ℕ → PyValue
  | floatBits : ℕ → PyValue
deriving DecidableEq, Repr

structure EngineeringParameter where
  name : String
  apid : ℕ
  seq_count : ℕ
  sample_time_tai : ℚ
  raw_value : PyValue
  eng_value : PyValue
  unit : Option String := none
  validity : Bool := true
  calibration_id : Option String := none
  out_of_limit : Bool := false
  alarm_level : ℕ := 0
deriving DecidableEq, Repr

structure ParameterRecord where
  name : String
  unit : Option String := none
  samples : List EngineeringParameter := []
deriving DecidableEq, Repr

def assocGet [DecidableEq κ] : List (κ × α) → κ → Option α
  | [], _ => none
  | (k2, v) :: rest, k => if k2 = k then some v else assocGet rest k

def assocUpdate [DecidableEq κ] : List (κ × α) → κ → α → List (κ × α)
  | [], _, _ => []
  | (k2, w) :: rest, k, v =>
    if k2 = k then (k, v) :: assocUpdate rest k v
    else (k2, w) :: assocUpdate rest k v

/-- `TelemetryDataset`, value-level view (the mutation-sensitive `merge` is
modelled separately on an explicit record heap below). -/
structure TelemetryDataset where
  packets : List TelemetryPacket := []
  parameters : List (String × ParameterRecord) := []
  metadata : List (String × String) := []
deriving DecidableEq, Repr

/-- `TelemetryDataset.add_parameter`: create the record lazily on first use,
then append the sample to the record's list. -/
def TelemetryDataset.add_parameter (ds : TelemetryDataset) (p : EngineeringParameter) :
    TelemetryDataset :=
  match assocGet ds.parameters p.name with
  | none =>
    { ds with parameters :=
        ds.parameters ++ [(p.name, { name := p.name, unit := p.unit, samples := [p] })] }
  | some r =>
    { ds with parameters :=
        assocUpdate ds.parameters p.name { r with samples := r.samples ++ [p] } }

/-! ## Decommutation engine (`src/mdp/plugins/transformers/decom.py`) -/

structure ParameterDefinition where
  name : String
  apid : ℕ
  byte_offset : ℕ
  bit_length : ℕ
  param_type : ParameterType
  unit : Option String := none
  little_endian : Bool := false
  description : Option String := none
deriving DecidableEq, Repr

structure DecomConfig where
  parameters : List ParameterDefinition
  skip_unknown_apids : Bool := true
deriving Repr

/-- The `_STRUCT_FMTS` lookup table keyed by declared type and bit width. -/
def structKnown (t : ParameterType) (bits : ℕ) : Bool :=
  match t with
  | .uint => bits == 8 || bits == 16 || bits == 32 || bits == 64
  | .int => bits == 8 || bits == 16 || bits == 32 || bits == 64
  | .float => bits == 32
  | .double => bits == 64
  | _ => false

def beBytesToNat (bs : List ℕ) : ℕ := bs.foldl (fun acc b => acc * 256 + b) 0

/-- Two's-complement reading of an unsigned word, as `struct` does for the
signed formats. -/
def toSigned (n bits : ℕ) : ℤ :=
  if n < 2 ^ (bits - 1) then (n : ℤ) else (n : ℤ) - 2 ^ bits

def hexDigit (n : ℕ) : Char :=
  if n < 10 then Char.ofNat (48 + n) else Char.ofNat (87 + n)

/-- Python's `bytes.hex()`. -/
def hexString (bs : List ℕ) : String :=
  ⟨bs.flatMap (fun b => [hexDigit (b / 16 % 16), hexDigit (b % 16)])⟩

/-- `bytes.decode("ascii", errors="replace")` followed by `rstrip("\x00")`:
non-ASCII bytes become U+FFFD, trailing NULs are trimmed. -/
def decodeAscii (bs : List ℕ) : String :=
  ⟨((bs.map (fun b => if b < 128 then Char.ofNat b else Char.ofNat 0xFFFD)).reverse.dropWhile
      (fun c => c = Char.ofNat 0)).reverse⟩

/-- `DecomTransformer._decode_bytes`: `struct`-style decode for the known
type/width pairs, special cases for boolean/string/binary, and the
permissive plain-integer fallback for anything else.  `bool(raw_bytes[0])`
raises on an empty slice. -/
def decode_bytes (raw_bytes : List ℕ) (pdef : ParameterDefinition) : Except String PyValue :=
  let n := if pdef.little_endian then beBytesToNat raw_bytes.reverse else beBytesToNat raw_bytes
  if structKnown pdef.param_type pdef.bit_length then
    match pdef.param_type with
    | .uint => .ok (.intv (n : ℤ))
    | .int => .ok (.intv (toSigned n pdef.bit_length))
    | _ => .ok (.floatBits n)
  else
    match pdef.param_type with
    | .boolean =>
      match raw_bytes with
      | [] => .error ("IndexError")
      | b :: _ => .ok (.boolv (b != 0))
    | .string => .ok (.strv (decodeAscii raw_bytes))
    | .binary => .ok (.bytesv raw_bytes)
    | _ => .ok (.intv (n : ℤ))

/-- `_extract_tai`: source timestamp when present, else the sequence count
as a placeholder. -/
def extract_tai (packet : TelemetryPacket) : ℚ :=
  match packet.source_time_tai with
  | some t => t
  | none => (packet.header.seq_count : ℚ)

/-- `DecomTransformer._extract_parameter`: skip silently (`ok none`) when
the field does not fit in the user data, otherwise decode the byte slice
and build the sample (binary raw values are hex-encoded for the engineering
value). -/
def extract_parameter (packet : TelemetryPacket) (pdef : ParameterDefinition) :
    Except String (Option EngineeringParameter) :=
  let data := packet.user_data
  let byte_count := (pdef.bit_length + 7) / 8
  if data.length < pdef.byte_offset + byte_count then .ok none
  else
    let raw_bytes := (data.drop pdef.byte_offset).take byte_count
    match decode_bytes raw_bytes pdef with
    | .error e => .error e
    | .ok raw_value =>
      .ok (some
        { name := pdef.name
          apid := packet.header.apid
          seq_count := packet.header.seq_count
          sample_time_tai := extract_tai packet
          raw_value := raw_value
          eng_value := match raw_value with
            | .bytesv bs => .strv (hexString bs)
            | v => v
          unit := pdef.unit })

/-- One step of `DecomTransformer.setup`'s
`self._apid_map.setdefault(pdef.apid, []).append(pdef)`. -/
def apidMapStep (m : List (ℕ × List ParameterDefinition)) (p : ParameterDefinition) :
    List (ℕ × List ParameterDefinition) :=
  match assocGet m p.apid with
  | none => m ++ [(p.apid, [p])]
  | some l => assocUpdate m p.apid (l ++ [p])

def buildApidMap (ps : List ParameterDefinition) : List (ℕ × List ParameterDefinition) :=
  ps.foldl apidMapStep []

/-- The inner `for pdef in defs` loop of `DecomTransformer.transform`. -/
def extractLoop (pkt : TelemetryPacket) :
    List ParameterDefinition → TelemetryDataset → Except String TelemetryDataset
  | [], ds => .ok ds
  | d :: defs, ds =>
    match extract_parameter pkt d with
    | .error e => .error e
    | .ok none => extractLoop pkt defs ds
    | .ok (some param) => extractLoop pkt defs (ds.add_parameter param)

/-- The outer `for packet in dataset.iter_packets()` loop of
`DecomTransformer.transform`: unknown APIDs skip or raise per configuration,
and any extraction exception propagates. -/
def decomGo (skipUnknown : Bool) (amap : List (ℕ × List ParameterDefinition)) :
    List TelemetryPacket → TelemetryDataset → Except String TelemetryDataset
  | [], ds => .ok ds
  | pkt :: rest, ds =>
    match assocGet amap pkt.header.apid with
    | none =>
      if skipUnknown then decomGo skipUnknown amap rest ds
      else .error ("No parameter definitions for APID")
    | some defs =>
      match extractLoop pkt defs ds with
      | .error e => .error e
      | .ok ds2 => decomGo skipUnknown amap rest ds2

/-- `DecomTransformer.transform` (after `setup` built the APID index). -/
def decomTransform (cfg : DecomConfig) (ds : TelemetryDataset) :
    Except String TelemetryDataset :=
  decomGo cfg.skip_unknown_apids (buildApidMap cfg.parameters) ds.packets ds

theorem assocGet_append_single [DecidableEq κ] (m : List (κ × α)) (k a : κ) (v : α) :
    assocGet (m ++ [(k, v)]) a =
      match assocGet m a with
      | some w => some w
      | none => if k = a then some v else none := by
  induction m with
  | nil => simp [assocGet]
  | cons kv rest ih =>
    obtain ⟨k2, w⟩ := kv
    by_cases hk : k2 = a
    · simp [assocGet, hk]
    · simp only [List.cons_append, assocGet, if_neg hk]
      exact ih

theorem assocGet_update [DecidableEq κ] (m : List (κ × α)) (k : κ) (v : α) (a : κ) :
    assocGet (assocUpdate m k v) a =
      if k = a then
        match assocGet m k with
        | some _ => some v
        | none => none
      else assocGet m a := by
  induction m with
  | nil =>
    by_cases hka : k = a <;> simp [assocGet, assocUpdate, hka]
  | cons kv rest ih =>
    obtain ⟨k2, w⟩ := kv
    rw [assocUpdate]
    by_cases h2k : k2 = k
    · rw [if_pos h2k]
      by_cases hka : k = a
      · rw [assocGet, if_pos hka, if_pos hka, assocGet, if_pos (h2k.trans hka ▸ h2k)]
      · rw [assocGet, if_neg hka, if_neg hka, ih, if_neg hka, assocGet,
          if_neg (fun h => hka (h2k ▸ h))]
    · rw [if_neg h2k]
      by_cases h2a : k2 = a
      · have hka : ¬ k = a := fun h => h2k (h2a.trans h.symm)
        rw [assocGet, if_pos h2a, if_neg hka, assocGet, if_pos h2a]
      · have e1 : assocGet ((k2, w) :: rest) k = assocGet rest k := by
          rw [assocGet, if_neg h2k]
        have e2 : assocGet ((k2, w) :: rest) a = assocGet rest a := by
          rw [assocGet, if_neg h2a]
        rw [e1, e2, assocGet, if_neg h2a, ih]

theorem buildApidMap_go (ps : List ParameterDefinition) :
    ∀ (m : List (ℕ × List ParameterDefinition)) (a : ℕ),
      assocGet (ps.foldl apidMapStep m) a =
        match assocGet m a with
        | some l => some (l ++ ps.filter (fun q => q.apid == a))
        | none =>
          if (ps.filter (fun q => q.apid == a)).isEmpty then none
          else some (ps.filter (fun q => q.apid == a)) := by
  induction ps with
  | nil =>
    intro m a
    cases h : assocGet m a <;> simp [h]
  | cons p ps ih =>
    intro m a
    rw [List.foldl_cons, ih (apidMapStep m p) a]
    by_cases hpa : p.apid = a
    · subst hpa
      have hf : (p :: ps).filter (fun q => q.apid == p.apid)
          = p :: ps.filter (fun q => q.apid == p.apid) := by
        simp [List.filter_cons]
      rw [hf, apidMapStep]
      cases hm : assocGet m p.apid with
      | none =>
        rw [assocGet_append_single, hm]
        simp
      | some l =>
        rw [assocGet_update, if_pos rfl, hm]
        simp
    · have hf : (p :: ps).filter (fun q => q.apid == a)
          = ps.filter (fun q => q.apid == a) := by
        simp [List.filter_cons, hpa]
      rw [hf, apidMapStep]
      cases hm : assocGet m p.apid with
      | none =>
        rw [assocGet_append_single]
        cases hma : assocGet m a <;> simp [hma, hpa]
      | some l =>
        rw [assocGet_update, if_neg hpa]

theorem buildApidMap_lookup (ps : List ParameterDefinition) (a : ℕ) :
    assocGet (buildApidMap ps) a =
      if (ps.filter (fun q => q.apid == a)).isEmpty then none
      else some (ps.filter (fun q => q.apid == a)) := by
  have h := buildApidMap_go ps [] a
  rw [buildApidMap]
  rw [h]
  rfl

theorem extract_parameter_short (pkt : TelemetryPacket) (pdef : ParameterDefinition)
    (h : pkt.user_data.length < pdef.byte_offset + (pdef.bit_length + 7) / 8) :
    extract_parameter pkt pdef = .ok none := by
  rw [extract_parameter]
  dsimp only
  rw [if_pos h]

theorem extractLoop_insert (pkt : TelemetryPacket) (pdef : ParameterDefinition)
    (hnone : extract_parameter pkt pdef = .ok none) :
    ∀ (l1 l2 : List ParameterDefinition) (ds : TelemetryDataset),
      extractLoop pkt (l1 ++ pdef :: l2) ds = extractLoop pkt (l1 ++ l2) ds := by
  intro l1
  induction l1 with
  | nil =>
    intro l2 ds
    rw [List.nil_append, List.nil_append, extractLoop, hnone]
  | cons d l1 ih =>
    intro l2 ds
    rw [List.cons_append, List.cons_append, extractLoop, extractLoop]
    cases hx : extract_parameter pkt d with
    | error e => rfl
    | ok v =>
      cases v with
      | none => exact ih l2 ds
      | some param => exact ih l2 (ds.add_parameter param)

theorem decomGo_insert (pdef : ParameterDefinition) (l1 l2 : List ParameterDefinition) :
    ∀ (pkts : List TelemetryPacket),
      (∀ q ∈ pkts, q.header.apid = pdef.apid →
        q.user_data.length < pdef.byte_offset + (pdef.bit_length + 7) / 8) →
      ∀ ds, decomGo true (buildApidMap (l1 ++ pdef :: l2)) pkts ds
          = decomGo true (buildApidMap (l1 ++ l2)) pkts ds := by
  intro pkts
  induction pkts with
  | nil =>
    intro _ ds
    rfl
  | cons pkt rest ih =>
    intro hshort ds
    have hrest : ∀ q ∈ rest, q.header.apid = pdef.apid →
        q.user_data.length < pdef.byte_offset + (pdef.bit_length + 7) / 8 :=
      fun q hq => hshort q (by simp [hq])
    rw [decomGo, decomGo,
      buildApidMap_lookup (l1 ++ pdef :: l2) pkt.header.apid,
      buildApidMap_lookup (l1 ++ l2) pkt.header.apid]
    by_cases hpa : pdef.apid = pkt.header.apid
    · have hf1 : (l1 ++ pdef :: l2).filter (fun q => q.apid == pkt.header.apid)
          = l1.filter (fun q => q.apid == pkt.header.apid)
            ++ pdef :: l2.filter (fun q => q.apid == pkt.header.apid) := by
        simp [List.filter_append, List.filter_cons, hpa]
      have hnone : extract_parameter pkt pdef = .ok none :=
        extract_parameter_short pkt pdef (hshort pkt (by simp) hpa.symm)
      have hne1 : ((l1 ++ pdef :: l2).filter
          (fun q => q.apid == pkt.header.apid)).isEmpty = false := by
        rw [hf1]
        cases hl : l1.filter (fun q => q.apid == pkt.header.apid) <;> rfl
      rw [if_neg (by rw [hne1]; exact Bool.false_ne_true)]
      by_cases hE : ((l1 ++ l2).filter (fun q => q.apid == pkt.header.apid)).isEmpty = true
      · have hnil : (l1 ++ l2).filter (fun q => q.apid == pkt.header.apid) = [] :=
          List.isEmpty_iff.mp hE
        rw [List.filter_append] at hnil
        obtain ⟨hn1, hn2⟩ := List.append_eq_nil.mp hnil
        rw [if_pos hE]
        dsimp only
        have hloop : extractLoop pkt ((l1 ++ pdef :: l2).filter
            (fun q => q.apid == pkt.header.apid)) ds = .ok ds := by
          rw [hf1, hn1, hn2, List.nil_append, extractLoop, hnone]
          rfl
        rw [hloop]
        exact ih hrest ds
      · rw [if_neg hE]
        dsimp only
        have hloop : extractLoop pkt ((l1 ++ pdef :: l2).filter
              (fun q => q.apid == pkt.header.apid)) ds
            = extractLoop pkt ((l1 ++ l2).filter
              (fun q => q.apid == pkt.header.apid)) ds := by
          rw [hf1, extractLoop_insert pkt pdef hnone, ← List.filter_append]
        rw [hloop]
        cases hx : extractLoop pkt ((l1 ++ l2).filter
            (fun q => q.apid == pkt.header.apid)) ds with
        | error e => rfl
        | ok ds2 => exact ih hrest ds2
    · have hf : (l1 ++ pdef :: l2).filter (fun q => q.apid == pkt.header.apid)
          = (l1 ++ l2).filter (fun q => q.apid == pkt.header.apid) := by
        simp [List.filter_append, List.filter_cons, hpa]
      rw [hf]
      by_cases hE : ((l1 ++ l2).filter (fun q => q.apid == pkt.header.apid)).isEmpty = true
      · rw [if_pos hE]
        dsimp only
        exact ih hrest ds
      · rw [if_neg hE]
        dsimp only
        cases hx : extractLoop pkt ((l1 ++ l2).filter
            (fun q => q.apid == pkt.header.apid)) ds with
        | error e => rfl
        | ok ds2 => exact ih hrest ds2

/-- Claim C8: a parameter whose field does not fit in a packet's user data
(`byte_offset + ceil(bit_length/8)` past the end) yields no sample and no
error from that packet, and leaves every other definition's and packet's
samples untouched: inserting such a definition anywhere in the table does
not change the transform's result on a batch whose matching packets are all
short. -/
theorem C8_short_field_skipped (pdef : ParameterDefinition) :
    (∀ pkt : TelemetryPacket,
      pkt.user_data.length < pdef.byte_offset + (pdef.bit_length + 7) / 8 →
      extract_parameter pkt pdef = .ok none ∧
      ∀ (l1 l2 : List ParameterDefinition) (ds : TelemetryDataset),
        extractLoop pkt (l1 ++ pdef :: l2) ds = extractLoop pkt (l1 ++ l2) ds) ∧
    (∀ (l1 l2 : List ParameterDefinition) (ds : TelemetryDataset),
      (∀ q ∈ ds.packets, q.header.apid = pdef.apid →
        q.user_data.length < pdef.byte_offset + (pdef.bit_length + 7) / 8) →
      decomTransform ⟨l1 ++ pdef :: l2, true⟩ ds = decomTransform ⟨l1 ++ l2, true⟩ ds) := by
  constructor
  · intro pkt hshort
    have hnone := extract_parameter_short pkt pdef hshort
    exact ⟨hnone, extractLoop_insert pkt pdef hnone⟩
  · intro l1 l2 ds hshort
    rw [decomTransform, decomTransform]
    exact decomGo_insert pdef l1 l2 ds.packets hshort ds

theorem C8_short_field_skipped_witness :
    extract_parameter { header := sampleHeader, user_data := [0x7f] }
        { name := "w", apid := 5, byte_offset := 4, bit_length := 16, param_type := .uint }
      = .ok none ∧
    decomTransform
        ⟨[{ name := "w", apid := 5, byte_offset := 4, bit_length := 16,
            param_type := .uint }], true⟩
        { packets := [{ header := sampleHeader, user_data := [0x7f] }] }
      = decomTransform ⟨[], true⟩
          { packets := [{ header := sampleHeader, user_data := [0x7f] }] } :=
  ⟨((C8_short_field_skipped
      { name := "w", apid := 5, byte_offset := 4, bit_length := 16, param_type := .uint }).1
      { header := sampleHeader, user_data := [0x7f] } (by decide)).1,
   (C8_short_field_skipped
      { name := "w", apid := 5, byte_offset := 4, bit_length := 16, param_type := .uint }).2
      [] [] { packets := [{ header := sampleHeader, user_data := [0x7f] }] } (by decide)⟩

/-! ## `TelemetryDataset.merge` on an explicit record heap
(`src/mdp/models/dataset.py`)

`merge` copies `ParameterRecord` references into the new dataset and, for a
name present in both inputs, swaps the sample list of the *aliased* record
with `object.__setattr__`.  To make that aliasing observable the records
live in an explicit store (the heap), and datasets hold record ids. -/

structure RecordStore where
  recs : List ParameterRecord
deriving DecidableEq, Repr

def storeGet (st : RecordStore) (i : ℕ) : ParameterRecord :=
  st.recs.getD i { name := "" }

def storeSet (st : RecordStore) (i : ℕ) (r : ParameterRecord) : RecordStore :=
  ⟨st.recs.set i r⟩

/-- `TelemetryDataset`, heap view: `parameters` maps names to record ids. -/
structure HeapTelemetryDataset where
  packets : List TelemetryPacket := []
  parameters : List (String × ℕ) := []
  metadata : List (String × String) := []
deriving DecidableEq, Repr

/-- Python `{**a, **b}`: keys of `a` in order with values overridden by `b`,
then the new keys of `b` in order. -/
def dictUpdate (a b : List (String × String)) : List (String × String) :=
  a.map (fun kv =>
    match assocGet b kv.1 with
    | some v => (kv.1, v)
    | none => kv)
    ++ b.filter (fun kv => (assocGet a kv.1).isNone)

/-- The `for name, record in other.parameters.items()` loop of `merge`: an
already-present name appends the other record's samples onto the aliased
record *in the store*; a new name aliases the other record's id. -/
def mergeLoop : List (String × ℕ) → List (String × ℕ) → RecordStore →
    List (String × ℕ) × RecordStore
  | [], merged, st => (merged, st)
  | (name, rid) :: rest, merged, st =>
    match assocGet merged name with
    | some existing_id =>
      let er := storeGet st existing_id
      let st2 := storeSet st existing_id
        { er with samples := er.samples ++ (storeGet st rid).samples }
      mergeLoop rest merged st2
    | none => mergeLoop rest (merged ++ [(name, rid)]) st

/-- `TelemetryDataset.merge` on the heap: new dataset with concatenated
packets, merged metadata, `self`'s records aliased in, and `other`'s
records folded in by `mergeLoop`. -/
def HeapTelemetryDataset.merge (self other : HeapTelemetryDataset) (st : RecordStore) :
    HeapTelemetryDataset × RecordStore :=
  let res := mergeLoop other.parameters self.parameters st
  ({ packets := self.packets ++ other.packets,
     parameters := res.1,
     metadata := dictUpdate self.metadata other.metadata }, res.2)

/-- A single engineering sample of parameter `x` used by the merge
evaluation. -/
def sampleX (t v : ℚ) : EngineeringParameter :=
  { name := "x", apid := 0x100, seq_count := 0, sample_time_tai := t,
    raw_value := .ratv v, eng_value := .ratv v, unit := some "K" }

/-- Claim C1 (code bug, evaluated at the failing input): datasets `a` and
`b` each hold one sample of parameter `x` (record ids 0 and 1).  After
`a.merge(b)` the merged dataset holds both samples under `x` — but through
the record aliased from `a`, which `merge` mutated in place: `a`'s record 0
grew from one sample to two, so the left input dataset was modified,
contradicting the claim and `merge`'s own docstring
("Non-destructively merge two datasets into a new one"). -/
theorem C1_merge_mutates_left_input :
    (storeGet ⟨[{ name := "x", unit := some "K", samples := [sampleX 1 1] },
                { name := "x", unit := some "K", samples := [sampleX 2 2] }]⟩ 0).samples
      = [sampleX 1 1] ∧
    (HeapTelemetryDataset.merge { parameters := [("x", 0)] } { parameters := [("x", 1)] }
        ⟨[{ name := "x", unit := some "K", samples := [sampleX 1 1] },
          { name := "x", unit := some "K", samples := [sampleX 2 2] }]⟩).1.parameters
      = [("x", 0)] ∧
    (storeGet
      (HeapTelemetryDataset.merge { parameters := [("x", 0)] } { parameters := [("x", 1)] }
        ⟨[{ name := "x", unit := some "K", samples := [sampleX 1 1] },
          { name := "x", unit := some "K", samples := [sampleX 2 2] }]⟩).2 0).samples
      = [sampleX 1 1, sampleX 2 2] := by
  refine ⟨by decide, by decide, by decide⟩

/-! ## Pipeline orchestrator (`src/mdp/core/pipeline.py`, `src/mdp/core/base.py`)

Stages are embedded as named functions returning `Except`; `_timed_transform`
and `_timed_load` catch the exception and report it in the `StageResult`
(wall-clock timing fields are not modelled).  The extractor's batch sequence
is given as a list. -/

inductive StageStatus
  | pending
  | running
  | success
  | failed
  | skipped
deriving DecidableEq, Repr

structure StageResult where
  stage_name : String
  status : StageStatus
  records_in : ℕ := 0
  records_out : ℕ := 0
  error : Option String := none
deriving DecidableEq, Repr

structure PipelineConfig where
  name : String
  stop_on_error : Bool := true
  max_batches : Option ℕ := none
  dry_run : Bool := false
deriving Repr

structure PipelineResult where
  pipeline_name : String
  status : StageStatus
  batches_processed : ℕ
  total_packets : ℕ
  stage_results : List StageResult
  errors : List String
deriving DecidableEq, Repr

/-- `Transformer._timed_transform`: on success the transformed dataset with
a SUCCESS result, on an exception the original dataset with a FAILED result
carrying the error. -/
def timedTransform (t : String × (TelemetryDataset → Except String TelemetryDataset))
    (ds : TelemetryDataset) : TelemetryDataset × StageResult :=
  match t.2 ds with
  | .ok r =>
    (r, { stage_name := t.1, status := .success,
          records_in := ds.packets.length, records_out := r.packets.length })
  | .error e =>
    (ds, { stage_name := t.1, status := .failed,
           records_in := ds.packets.length, error := some e })

/-- `Loader._timed_load`. -/
def timedLoad (l : String × (TelemetryDataset → Except String Unit))
    (ds : TelemetryDataset) : StageResult :=
  match l.2 ds with
  | .ok _ =>
    { stage_name := l.1, status := .success, records_in := ds.packets.length }
  | .error e =>
    { stage_name := l.1, status := .failed,
      records_in := ds.packets.length, error := some e }

/-- `Pipeline._run_transformers`: apply the transformers in order, recording
each result, collecting errors, and breaking after the first error when
`stop_on_error` is set. -/
def runTransformersGo (stopOnError : Bool) :
    List (String × (TelemetryDataset → Except String TelemetryDataset)) →
    TelemetryDataset → List StageResult → List String →
    TelemetryDataset × List StageResult × List String
  | [], ds, rs, es => (ds, rs, es)
  | t :: ts, ds, rs, es =>
    let res := timedTransform t ds
    let rs2 := rs ++ [res.2]
    match res.2.error with
    | some e =>
      if stopOnError then (res.1, rs2, es ++ [e])
      else runTransformersGo stopOnError ts res.1 rs2 (es ++ [e])
    | none => runTransformersGo stopOnError ts res.1 rs2 es

def runTransformers (stopOnError : Bool)
    (ts : List (String × (TelemetryDataset → Except String TelemetryDataset)))
    (ds : TelemetryDataset) :
    TelemetryDataset × List StageResult × List String :=
  runTransformersGo stopOnError ts ds [] []

/-- Python truthiness of `if self.config.max_batches and batches >= ...`:
`None` and `0` both disable the limit. -/
def maxReached (cfg : PipelineConfig) (batches : ℕ) : Bool :=
  match cfg.max_batches with
  | some m => decide (m ≠ 0 ∧ m ≤ batches)
  | none => false

def mkResult (cfg : PipelineConfig) (batches total : ℕ)
    (srs : List StageResult) (errs : List String) : PipelineResult :=
  { pipeline_name := cfg.name,
    status := if errs.isEmpty then .success else .failed,
    batches_processed := batches, total_packets := total,
    stage_results := srs, errors := errs }

/-- The `for dataset in self.extractor.extract()` loop of `Pipeline.run`,
also tracking the datasets handed to the loader (the sink calls). -/
def pipelineRunGo (cfg : PipelineConfig)
    (ts : List (String × (TelemetryDataset → Except String TelemetryDataset)))
    (loader : Option (String × (TelemetryDataset → Except String Unit))) :
    List TelemetryDataset → ℕ → ℕ → List StageResult → List String →
    List TelemetryDataset → PipelineResult × List TelemetryDataset
  | [], batches, total, srs, errs, loads => (mkResult cfg batches total srs errs, loads)
  | ds :: rest, batches, total, srs, errs, loads =>
    let tr := runTransformers cfg.stop_on_error ts ds
    let srs1 := srs ++ tr.2.1
    let errs1 := errs ++ tr.2.2
    if tr.2.2 ≠ [] ∧ cfg.stop_on_error then
      (mkResult cfg batches total srs1 errs1, loads)
    else
      match loader, cfg.dry_run with
      | some l, false =>
        let lr := timedLoad l tr.1
        let srs2 := srs1 ++ [lr]
        let loads2 := loads ++ [tr.1]
        match lr.error with
        | some e =>
          if cfg.stop_on_error then
            (mkResult cfg batches total srs2 (errs1 ++ [e]), loads2)
          else
            if maxReached cfg (batches + 1) then
              (mkResult cfg (batches + 1) (total + tr.1.packets.length) srs2
                (errs1 ++ [e]), loads2)
            else
              pipelineRunGo cfg ts loader rest (batches + 1)
                (total + tr.1.packets.length) srs2 (errs1 ++ [e]) loads2
        | none =>
          if maxReached cfg (batches + 1) then
            (mkResult cfg (batches + 1) (total + tr.1.packets.length) srs2 errs1, loads2)
          else
            pipelineRunGo cfg ts loader rest (batches + 1)
              (total + tr.1.packets.length) srs2 errs1 loads2
      | _, _ =>
        if maxReached cfg (batches + 1) then
          (mkResult cfg (batches + 1) (total + tr.1.packets.length) srs1 errs1, loads)
        else
          pipelineRunGo cfg ts loader rest (batches + 1)
            (total + tr.1.packets.length) srs1 errs1 loads

/-- `Pipeline.run`: drive the batches through transformers and loader,
returning the aggregated result and the sink calls made. -/
def pipelineRun (cfg : PipelineConfig)
    (ts : List (String × (TelemetryDataset → Except String TelemetryDataset)))
    (loader : Option (String × (TelemetryDataset → Except String Unit)))
    (batches : List TelemetryDataset) : PipelineResult × List TelemetryDataset :=
  pipelineRunGo cfg ts loader batches 0 0 [] [] []

/-- Claim C5: with `stop_on_error=True`, an always-failing transformer
aborts the run during the first batch after recording its error — no batch
is counted as processed and nothing reaches the sink; with
`stop_on_error=False` over 3 batches, all 3 batches are processed, the 3
errors are recorded in order, and each failing batch's output (the dataset
state it reached, here the input dataset) is still passed onward to the
sink. -/
theorem C5_stop_on_error (nm lname : String) (errOf : TelemetryDataset → String)
    (L : TelemetryDataset → Except String Unit)
    (d : TelemetryDataset) (ds : List TelemetryDataset)
    (b1 b2 b3 : TelemetryDataset) :
    ((pipelineRun { name := "p", stop_on_error := true }
        [(nm, fun x => .error (errOf x))] (some (lname, L)) (d :: ds)).1.batches_processed
        = 0 ∧
     (pipelineRun { name := "p", stop_on_error := true }
        [(nm, fun x => .error (errOf x))] (some (lname, L)) (d :: ds)).1.errors
        = [errOf d] ∧
     (pipelineRun { name := "p", stop_on_error := true }
        [(nm, fun x => .error (errOf x))] (some (lname, L)) (d :: ds)).2 = [] ∧
     (pipelineRun { name := "p", stop_on_error := true }
        [(nm, fun x => .error (errOf x))] (some (lname, L)) (d :: ds)).1.status
        = .failed) ∧
    ((pipelineRun { name := "p", stop_on_error := false }
        [(nm, fun x => .error (errOf x))] (some (lname, fun _ => .ok ()))
        [b1, b2, b3]).1.batches_processed = 3 ∧
     (pipelineRun { name := "p", stop_on_error := false }
        [(nm, fun x => .error (errOf x))] (some (lname, fun _ => .ok ()))
        [b1, b2, b3]).1.errors = [errOf b1, errOf b2, errOf b3] ∧
     (pipelineRun { name := "p", stop_on_error := false }
        [(nm, fun x => .error (errOf x))] (some (lname, fun _ => .ok ()))
        [b1, b2, b3]).2 = [b1, b2, b3] ∧
     (pipelineRun { name := "p", stop_on_error := false }
        [(nm, fun x => .error (errOf x))] (some (lname, fun _ => .ok ()))
        [b1, b2, b3]).1.total_packets
        = b1.packets.length + b2.packets.length + b3.packets.length ∧
     (pipelineRun { name := "p", stop_on_error := false }
        [(nm, fun x => .error (errOf x))] (some (lname, fun _ => .ok ()))
        [b1, b2, b3]).1.status = .failed) :=
  ⟨⟨rfl, rfl, rfl, rfl⟩,
   ⟨rfl, rfl, rfl,
    (by
      show 0 + b1.packets.length + b2.packets.length + b3.packets.length
        = b1.packets.length + b2.packets.length + b3.packets.length
      omega),
    rfl⟩⟩
